import Mathlib

/-!
# Verification of the VF2 graph-isomorphism core (`src/isomorphism.rs`)

This file gives a shallow embedding in Lean 4 of the VF2 isomorphism check:
the matching state `Vf2State` with its commit/undo (`push_mapping` /
`pop_mapping`) and candidate scan operations, the recursive backtracking
driver `try_match`, and the entry point `is_isomorphic`.

The graph container itself is an external collaborator of the core (it is not
part of the repository source); it is modelled from the spec as an edge list
together with a node count and a directedness flag, exposing exactly the
interface the core consumes: `node_count`, `edge_count`, `neighbors`
(outgoing, or all incident for undirected graphs), incoming neighbors, and a
precomputed dense adjacency predicate.

Machine integers are modelled as `Nat` (no arithmetic in the core can
overflow a `usize` on the inputs the algorithm constructs), and the sentinel
`NodeIndex::end()` used for "unmapped" entries is modelled as `none` in
`Option Nat` (the spec explicitly allows an explicit tagged absent variant in
place of the out-of-range sentinel).  The recursion of `try_match` is
expressed with an explicit fuel argument; the entry point supplies fuel
`node_count + 1`, which is shown to be sufficient in the proofs below.
-/

/-- Modelled from the spec: the external graph collaborator (the graph
storage representation is excluded from the repository core).  A graph is an
ordered set of nodes indexed `0..node_count-1`, a list of edges, and a
directedness flag. -/
structure Graph where
  node_count : Nat
  edges : List (Nat × Nat)
  directed : Bool

/-- Modelled from the spec: total edge cardinality. -/
def Graph.edge_count (g : Graph) : Nat := g.edges.length

/-- Modelled from the spec: the sequence of adjacent node indices of `v`
(outgoing targets for a directed graph; all incident counterparts for an
undirected graph). -/
def Graph.neighbors (g : Graph) (v : Nat) : List Nat :=
  if g.directed then
    g.edges.filterMap (fun e => if e.1 = v then some e.2 else none)
  else
    g.edges.filterMap (fun e =>
      if e.1 = v then some e.2 else if e.2 = v then some e.1 else none)

/-- Modelled from the spec: `neighbors_directed(v, Incoming)`, the sequence
of sources of edges into `v` (only consumed for directed graphs). -/
def Graph.neighbors_incoming (g : Graph) (v : Nat) : List Nat :=
  g.edges.filterMap (fun e => if e.2 = v then some e.1 else none)

/-- Modelled from the spec: the dense adjacency bit-matrix built once per
graph, answering "is `a` adjacent to `b`" in O(1); symmetric for undirected
graphs. -/
def Graph.adj_matrix (g : Graph) : Nat → Nat → Bool := fun a b =>
  if g.directed then g.edges.contains (a, b)
  else g.edges.contains (a, b) || g.edges.contains (b, a)

/-- Modelled from the spec: O(1) adjacency test against a precomputed
matrix (`GetAdjacencyMatrix::is_adjacent`). -/
def Graph.is_adjacent (_g : Graph) (m : Nat → Nat → Bool) (a b : Nat) : Bool :=
  m a b

/-- The matching state of one side of the search (struct `Vf2State`).
`mapping` uses `none` for `NodeIndex::end()`; `directed` models the
`EdgeType` phantom type parameter `Ty` of the Rust struct. -/
structure Vf2State where
  mapping : List (Option Nat)
  out : List Nat
  ins : List Nat
  out_size : Nat
  ins_size : Nat
  adjacency_matrix : Nat → Nat → Bool
  generation : Nat
  directed : Bool

/-- `Vf2State::new`: all entries unmapped, frontier markers zero (the
in-frontier storage is only materialized for directed graphs), generation
zero, adjacency matrix snapshotted from the graph. -/
def Vf2State.new (g : Graph) : Vf2State where
  mapping := List.replicate g.node_count none
  out := List.replicate g.node_count 0
  ins := List.replicate (if g.directed then g.node_count else 0) 0
  out_size := 0
  ins_size := 0
  adjacency_matrix := g.adj_matrix
  generation := 0
  directed := g.directed

/-- `Vf2State::is_complete`: true iff every node has been assigned. -/
def Vf2State.is_complete (st : Vf2State) : Bool :=
  st.generation == st.mapping.length

/-- One step of the out-frontier marking loop of `push_mapping`: a neighbor
whose marker is still `0` gets marker `s`; `out_size` is incremented once
per neighbor visited. -/
def Vf2State.mark_out (s : Nat) (a : Vf2State) (ix : Nat) : Vf2State :=
  { a with out := if a.out.getD ix 0 = 0 then a.out.set ix s else a.out,
           out_size := a.out_size + 1 }

/-- One step of the in-frontier marking loop of `push_mapping` (directed
graphs only); note that `ins_size` is not touched here — the Rust code
increments it once per call, outside the loop. -/
def Vf2State.mark_ins (s : Nat) (a : Vf2State) (ix : Nat) : Vf2State :=
  { a with ins := if a.ins.getD ix 0 = 0 then a.ins.set ix s else a.ins }

/-- `Vf2State::push_mapping`: add the mapping `fr ↦ t` to the state and
update the frontier bookkeeping. -/
def Vf2State.push_mapping (st : Vf2State) (fr t : Nat) (g : Graph) : Vf2State :=
  let s := st.generation + 1
  let st1 := { st with generation := s, mapping := st.mapping.set fr (some t) }
  let st2 := (g.neighbors fr).foldl (Vf2State.mark_out s) st1
  if g.directed then
    let st3 := (g.neighbors_incoming fr).foldl (Vf2State.mark_ins s) st2
    { st3 with ins_size := st3.ins_size + 1 }
  else st2

/-- One step of the out-frontier unmarking loop of `pop_mapping`: a marker
equal to the current generation `s` is reset to `0`; `out_size` is
decremented once per neighbor visited. -/
def Vf2State.unmark_out (s : Nat) (a : Vf2State) (ix : Nat) : Vf2State :=
  { a with out := if a.out.getD ix 0 = s then a.out.set ix 0 else a.out,
           out_size := a.out_size - 1 }

/-- One step of the in-frontier unmarking loop of `pop_mapping`. -/
def Vf2State.unmark_ins (s : Nat) (a : Vf2State) (ix : Nat) : Vf2State :=
  { a with ins := if a.ins.getD ix 0 = s then a.ins.set ix 0 else a.ins }

/-- `Vf2State::pop_mapping`: restore the state to before the last added
mapping of `fr`. -/
def Vf2State.pop_mapping (st : Vf2State) (fr : Nat) (g : Graph) : Vf2State :=
  let s := st.generation
  let st1 := { st with generation := st.generation - 1,
                       mapping := st.mapping.set fr none }
  let st2 := (g.neighbors fr).foldl (Vf2State.unmark_out s) st1
  if g.directed then
    let st3 := (g.neighbors_incoming fr).foldl (Vf2State.unmark_ins s) st2
    { st3 with ins_size := st3.ins_size - 1 }
  else st2

/-- `Vf2State::next_out_index`: scan `out[from_index..]` for the first
position whose marker is non-zero and whose node is unmapped; the returned
value is the position within the slice (callers add `from_index` back). -/
def Vf2State.next_out_index (st : Vf2State) (from_index : Nat) : Option Nat :=
  (((st.out.drop from_index).enum.filter
      (fun p => decide (0 < p.2) &&
        (st.mapping.getD (from_index + p.1) none).isNone)).head?).map
    (fun p => p.1)

/-- `Vf2State::next_in_index`: as `next_out_index` but over the in-frontier;
returns `none` outright when the edge type is undirected. -/
def Vf2State.next_in_index (st : Vf2State) (from_index : Nat) : Option Nat :=
  if !st.directed then none
  else
    (((st.ins.drop from_index).enum.filter
        (fun p => decide (0 < p.2) &&
          (st.mapping.getD (from_index + p.1) none).isNone)).head?).map
      (fun p => p.1)

/-- `Vf2State::next_rest_index`: scan `mapping[from_index..]` for the first
unmapped entry, ignoring frontier membership. -/
def Vf2State.next_rest_index (st : Vf2State) (from_index : Nat) : Option Nat :=
  (((st.mapping.drop from_index).enum.filter
      (fun p => p.2.isNone)).head?).map
    (fun p => p.1)

/-- The three candidate lists of the driver, in priority order (enum
`OpenList` in `try_match`). -/
inductive OpenList where
  | Out
  | In
  | Other
deriving DecidableEq, Repr

/-- The candidate-pair selection of `try_match` (the straight-line sequence
trying the out list, then the in list, then the rest list, mutating
`to_index` / `from_index` / `open_list`); yields `some (cand0, cand1, list)`
exactly when the final `from_index` and `to_index` are both present. -/
def select_candidates (st0 st1 : Vf2State) : Option (Nat × Nat × OpenList) :=
  let to0 := st1.next_out_index 0
  let from0 := if to0.isSome then st0.next_out_index 0 else none
  let step1 :=
    if to0.isNone || from0.isNone then
      let t := st1.next_in_index 0
      if t.isSome then (t, st0.next_in_index 0, OpenList.In)
      else (t, from0, OpenList.Out)
    else (to0, from0, OpenList.Out)
  let step2 :=
    if step1.1.isNone || step1.2.1.isNone then
      let t := st1.next_rest_index 0
      if t.isSome then (t, st0.next_rest_index 0, OpenList.Other)
      else (t, step1.2.1, step1.2.2)
    else step1
  match step2.2.1, step2.1 with
  | some n, some m => some (n, m, step2.2.2)
  | _, _ => none

/-- The "find the next node index to try on the `from` side" step of the
candidates loop: scan the chosen list from `start` and compensate for the
start offset. -/
def next_from_index (st : Vf2State) (list : OpenList) (start : Nat) : Option Nat :=
  (match list with
   | OpenList.Out => st.next_out_index start
   | OpenList.In => st.next_in_index start
   | OpenList.Other => st.next_rest_index start).map
    (fun c => c + start)

/-- The `R_succ` adjacency half-check for one side `j`: every outgoing
neighbor of `node` that is already mapped must map to an adjacency of
`other_node` in the other graph. -/
def succ_adj_ok (g og : Graph) (st ost : Vf2State) (node other_node : Nat) : Bool :=
  (g.neighbors node).all (fun n_neigh =>
    match st.mapping.getD n_neigh none with
    | none => true
    | some m_neigh => og.is_adjacent ost.adjacency_matrix other_node m_neigh)

/-- The `R_pred` adjacency half-check for one side `j` (directed only). -/
def pred_adj_ok (g og : Graph) (st ost : Vf2State) (node other_node : Nat) : Bool :=
  (g.neighbors_incoming node).all (fun n_neigh =>
    match st.mapping.getD n_neigh none with
    | none => true
    | some m_neigh => og.is_adjacent ost.adjacency_matrix m_neigh other_node)

/-- The syntactic feasibility test of a trial pair `(nx, mx)` (the `R_succ`
block with its successor-count comparison, followed by the `R_pred` block
when the graphs are directed).  `true` means the trial is not rejected. -/
def feasible (g0 g1 : Graph) (st0 st1 : Vf2State) (nx mx : Nat) : Bool :=
  succ_adj_ok g0 g1 st0 st1 nx mx &&
  succ_adj_ok g1 g0 st1 st0 mx nx &&
  ((g0.neighbors nx).length == (g1.neighbors mx).length) &&
  (!g0.directed ||
    (pred_adj_ok g0 g1 st0 st1 nx mx &&
     pred_adj_ok g1 g0 st1 st0 mx nx &&
     ((g0.neighbors_incoming nx).length == (g1.neighbors_incoming mx).length)))

/-- The post-commit "check counts in Tin/Tout" condition of `try_match`,
verbatim: `st[0].out_size == st[0].out_size || st[1].ins_size == st[1].ins_size`. -/
def size_check (st0 st1 : Vf2State) : Bool :=
  (st0.out_size == st0.out_size) || (st1.ins_size == st1.ins_size)

/-- The `'candidates` loop of `try_match`, one iteration per trial node
`nx` on the `from` side (the anchor `mx` is fixed).  `recurse` is the
recursive `try_match` call at the next depth; `cfuel` bounds the number of
iterations (the scan position strictly increases, so any bound no smaller
than the list length is sufficient). -/
def candidates_loop (g0 g1 : Graph)
    (recurse : Vf2State → Vf2State → Option Bool × Vf2State × Vf2State)
    (list : OpenList) (mx : Nat) :
    Nat → Nat → Vf2State → Vf2State → Option Bool × Vf2State × Vf2State
  | 0, _, st0, st1 => (none, st0, st1)
  | Nat.succ cfuel, nx, st0, st1 =>
    if feasible g0 g1 st0 st1 nx mx then
      let st0p := st0.push_mapping nx mx g0
      let st1p := st1.push_mapping mx nx g1
      if size_check st0p st1p then
        match recurse st0p st1p with
        | (some r, s0, s1) => (some r, s0, s1)
        | (none, s0, s1) =>
          let s0q := s0.pop_mapping nx g0
          let s1q := s1.pop_mapping mx g1
          match next_from_index s0q list (nx + 1) with
          | none => (none, s0q, s1q)
          | some nx' => candidates_loop g0 g1 recurse list mx cfuel nx' s0q s1q
      else
        let s0q := st0p.pop_mapping nx g0
        let s1q := st1p.pop_mapping mx g1
        match next_from_index s0q list (nx + 1) with
        | none => (none, s0q, s1q)
        | some nx' => candidates_loop g0 g1 recurse list mx cfuel nx' s0q s1q
    else
      match next_from_index st0 list (nx + 1) with
      | none => (none, st0, st1)
      | some nx' => candidates_loop g0 g1 recurse list mx cfuel nx' st0 st1

/-- The recursive search `try_match` (fuel-indexed): decide the isomorphism
from the current pair of matching states, `some true` on success, `none`
when the candidates at this depth are exhausted.  The fuel only bounds the
recursion depth; `node_count + 1` is always sufficient. -/
def try_match (g0 g1 : Graph) :
    Nat → Vf2State → Vf2State → Option Bool × Vf2State × Vf2State
  | 0, st0, st1 => (none, st0, st1)
  | Nat.succ fuel, st0, st1 =>
    if st0.is_complete then (some true, st0, st1)
    else
      match select_candidates st0 st1 with
      | none => (none, st0, st1)
      | some (cand0, cand1, list) =>
        candidates_loop g0 g1 (fun s0 s1 => try_match g0 g1 fuel s0 s1) list cand1
          (st0.mapping.length + st0.out.length + 1) cand0 st0 st1

/-- The entry point shape: reject when node or edge counts differ, otherwise
run the supplied search and map "no decision" to `false` (`unwrap_or(false)`). -/
def is_isomorphic_with (search : Graph → Graph → Option Bool) (g0 g1 : Graph) : Bool :=
  if g0.node_count != g1.node_count || g0.edge_count != g1.edge_count then false
  else (search g0 g1).getD false

/-- `is_isomorphic`: the single exposed operation, instantiating the entry
point with the recursive search started from two fresh matching states. -/
def is_isomorphic (g0 g1 : Graph) : Bool :=
  is_isomorphic_with
    (fun ga gb =>
      (try_match ga gb (ga.node_count + 1) (Vf2State.new ga) (Vf2State.new gb)).1)
    g0 g1

/-! ## Specification-side definitions

The definitions below are not translations of the source; they express the
properties the claims talk about (qualification predicates for the scans,
the declarative candidate selection, invariants), to be compared with the
source-shaped definitions above. -/

/-- Qualification for the out-frontier scan at absolute index `i`: in range,
non-zero out-frontier marker, and still unmapped. -/
def QOut (st : Vf2State) (i : Nat) : Prop :=
  i < st.out.length ∧ 0 < st.out.getD i 0 ∧ st.mapping.getD i none = none

/-- Qualification for the in-frontier scan at absolute index `i`. -/
def QIn (st : Vf2State) (i : Nat) : Prop :=
  i < st.ins.length ∧ 0 < st.ins.getD i 0 ∧ st.mapping.getD i none = none

/-- Qualification for the rest scan at absolute index `i`: in range and
unmapped, ignoring frontier membership. -/
def QRest (st : Vf2State) (i : Nat) : Prop :=
  i < st.mapping.length ∧ st.mapping.getD i none = none

instance (st : Vf2State) (i : Nat) : Decidable (QOut st i) := by
  unfold QOut; infer_instance

instance (st : Vf2State) (i : Nat) : Decidable (QIn st i) := by
  unfold QIn; infer_instance

instance (st : Vf2State) (i : Nat) : Decidable (QRest st i) := by
  unfold QRest; infer_instance

/-- First element (with its position, counted from `n`) of a list
satisfying a position-aware predicate; the reference point for the iterator
chains in the three scans. -/
def firstHit (p : Nat → α → Bool) : Nat → List α → Option (Nat × α)
  | _, [] => none
  | n, x :: xs => if p n x then some (n, x) else firstHit p (n + 1) xs

/-- Follows the spec's words: candidate-list selection in strict priority
order — out-frontier, then in-frontier, then smallest-remaining-unmapped —
where the first list yielding a candidate on both the `g1` side and the
`g0` side wins, and no list doing so means no decision. -/
def select_candidates_spec (st0 st1 : Vf2State) : Option (Nat × Nat × OpenList) :=
  match st1.next_out_index 0, st0.next_out_index 0 with
  | some m, some n => some (n, m, OpenList.Out)
  | _, _ =>
    match st1.next_in_index 0, st0.next_in_index 0 with
    | some m, some n => some (n, m, OpenList.In)
    | _, _ =>
      match st1.next_rest_index 0, st0.next_rest_index 0 with
      | some m, some n => some (n, m, OpenList.Other)
      | _, _ => none

/-- The frontier marking loops of `push_mapping`, as a pure list
transformation (first-touch: only markers still at `0` are stamped). -/
def mark_list (s : Nat) (nbrs : List Nat) (o : List Nat) : List Nat :=
  nbrs.foldl (fun o ix => if o.getD ix 0 = 0 then o.set ix s else o) o

/-- The frontier unmarking loops of `pop_mapping`, as a pure list
transformation (only markers carrying exactly the popped generation are
cleared). -/
def unmark_list (s : Nat) (nbrs : List Nat) (o : List Nat) : List Nat :=
  nbrs.foldl (fun o ix => if o.getD ix 0 = s then o.set ix 0 else o) o

/-- The candidates loop with the vacuous post-commit size check removed:
after a committed pair it recurses unconditionally. -/
def candidates_loop_nocheck (g0 g1 : Graph)
    (recurse : Vf2State → Vf2State → Option Bool × Vf2State × Vf2State)
    (list : OpenList) (mx : Nat) :
    Nat → Nat → Vf2State → Vf2State → Option Bool × Vf2State × Vf2State
  | 0, _, st0, st1 => (none, st0, st1)
  | Nat.succ cfuel, nx, st0, st1 =>
    if feasible g0 g1 st0 st1 nx mx then
      let st0p := st0.push_mapping nx mx g0
      let st1p := st1.push_mapping mx nx g1
      match recurse st0p st1p with
      | (some r, s0, s1) => (some r, s0, s1)
      | (none, s0, s1) =>
        let s0q := s0.pop_mapping nx g0
        let s1q := s1.pop_mapping mx g1
        match next_from_index s0q list (nx + 1) with
        | none => (none, s0q, s1q)
        | some nx' => candidates_loop_nocheck g0 g1 recurse list mx cfuel nx' s0q s1q
    else
      match next_from_index st0 list (nx + 1) with
      | none => (none, st0, st1)
      | some nx' => candidates_loop_nocheck g0 g1 recurse list mx cfuel nx' st0 st1

/-- The driver with the vacuous post-commit size check removed (recursing
unconditionally after each commit). -/
def try_match_nocheck (g0 g1 : Graph) :
    Nat → Vf2State → Vf2State → Option Bool × Vf2State × Vf2State
  | 0, st0, st1 => (none, st0, st1)
  | Nat.succ fuel, st0, st1 =>
    if st0.is_complete then (some true, st0, st1)
    else
      match select_candidates st0 st1 with
      | none => (none, st0, st1)
      | some (cand0, cand1, list) =>
        candidates_loop_nocheck g0 g1 (fun s0 s1 => try_match_nocheck g0 g1 fuel s0 s1)
          list cand1 (st0.mapping.length + st0.out.length + 1) cand0 st0 st1

/-- The two mappings of a search branch are mutual inverses on their
non-sentinel entries. -/
def mutual_inverse (st0 st1 : Vf2State) : Prop :=
  (∀ i j, st0.mapping.getD i none = some j → st1.mapping.getD j none = some i) ∧
  (∀ i j, st1.mapping.getD i none = some j → st0.mapping.getD j none = some i)

/-- Invariant for the reflexivity argument: running the check of `g`
against itself keeps each matching state diagonal — every mapped node is
mapped to itself, the number of mapped nodes is the generation, and the
adjacency matrix is the one of `g`. -/
def DiagInv (g : Graph) (st : Vf2State) : Prop :=
  st.mapping.length = g.node_count ∧
  st.out.length = st.mapping.length ∧
  st.ins.length ≤ st.mapping.length ∧
  (∀ i j, st.mapping.getD i none = some j → j = i) ∧
  List.countP (fun o => o.isSome) st.mapping = st.generation ∧
  st.adjacency_matrix = g.adj_matrix

/-- The relation the search decides (up to the top-level count guard): a
bijection `φ` (with inverse `ψ`) between the node ranges that preserves the
adjacency matrix on distinct pairs and preserves each node's outgoing (and,
when directed, incoming) neighbor-list length.  Self-loop edges are only
constrained through the neighbor counts, exactly as in the algorithm's
feasibility test. -/
def iso_pair (g0 g1 : Graph) (φ ψ : Nat → Nat) : Prop :=
  (∀ v, v < g0.node_count → φ v < g1.node_count) ∧
  (∀ w, w < g1.node_count → ψ w < g0.node_count) ∧
  (∀ v, v < g0.node_count → ψ (φ v) = v) ∧
  (∀ w, w < g1.node_count → φ (ψ w) = w) ∧
  (∀ a b, a < g0.node_count → b < g0.node_count → a ≠ b →
    g0.adj_matrix a b = g1.adj_matrix (φ a) (φ b)) ∧
  (∀ v, v < g0.node_count → (g0.neighbors v).length = (g1.neighbors (φ v)).length) ∧
  (g0.directed = true → ∀ v, v < g0.node_count →
    (g0.neighbors_incoming v).length = (g1.neighbors_incoming (φ v)).length)

/-- The partial mapping of side 0 agrees with the candidate bijection `φ`. -/
def mapping_agrees (φ : Nat → Nat) (st : Vf2State) : Prop :=
  ∀ i j, st.mapping.getD i none = some j → j = φ i

/-- Qualification of a node index for a given candidate list. -/
def Qlist (st : Vf2State) (list : OpenList) (i : Nat) : Prop :=
  match list with
  | OpenList.Out => QOut st i
  | OpenList.In => QIn st i ∧ st.directed = true
  | OpenList.Other => QRest st i

/-- The full invariant of a synchronized pair of matching states during a
search of `g0` against `g1`: array lengths and snapshot fields are the ones
of the construction, the two generations agree with the number of mapped
nodes, the two mappings are mutual inverses, the frontier markers are
bounded by the generation and mark exactly the nodes with a mapped
neighbor on the relevant side, and the partial mapping is adjacency- and
degree-preserving. -/
structure SearchInv (g0 g1 : Graph) (st0 st1 : Vf2State) : Prop where
  len_m0 : st0.mapping.length = g0.node_count
  len_m1 : st1.mapping.length = g1.node_count
  len_o0 : st0.out.length = g0.node_count
  len_o1 : st1.out.length = g1.node_count
  len_i0 : st0.ins.length = if g0.directed then g0.node_count else 0
  len_i1 : st1.ins.length = if g1.directed then g1.node_count else 0
  mat0 : st0.adjacency_matrix = g0.adj_matrix
  mat1 : st1.adjacency_matrix = g1.adj_matrix
  dir0 : st0.directed = g0.directed
  dir1 : st1.directed = g1.directed
  gen_sync : st0.generation = st1.generation
  count0 : List.countP (fun o => o.isSome) st0.mapping = st0.generation
  count1 : List.countP (fun o => o.isSome) st1.mapping = st1.generation
  inv : mutual_inverse st0 st1
  mark_le_out0 : ∀ i, st0.out.getD i 0 ≤ st0.generation
  mark_le_out1 : ∀ i, st1.out.getD i 0 ≤ st1.generation
  mark_le_ins0 : ∀ i, st0.ins.getD i 0 ≤ st0.generation
  mark_le_ins1 : ∀ i, st1.ins.getD i 0 ≤ st1.generation
  sem_out0 : ∀ i, i < g0.node_count →
    (0 < st0.out.getD i 0 ↔
      ∃ u j, st0.mapping.getD u none = some j ∧ i ∈ g0.neighbors u)
  sem_out1 : ∀ i, i < g1.node_count →
    (0 < st1.out.getD i 0 ↔
      ∃ u j, st1.mapping.getD u none = some j ∧ i ∈ g1.neighbors u)
  sem_ins0 : g0.directed = true → ∀ i, i < g0.node_count →
    (0 < st0.ins.getD i 0 ↔
      ∃ u j, st0.mapping.getD u none = some j ∧ i ∈ g0.neighbors_incoming u)
  sem_ins1 : g1.directed = true → ∀ i, i < g1.node_count →
    (0 < st1.ins.getD i 0 ↔
      ∃ u j, st1.mapping.getD u none = some j ∧ i ∈ g1.neighbors_incoming u)
  piso_mat : ∀ a b a' b', a ≠ b →
    st0.mapping.getD a none = some a' → st0.mapping.getD b none = some b' →
    g0.adj_matrix a b = g1.adj_matrix a' b'
  piso_deg : ∀ a a', st0.mapping.getD a none = some a' →
    (g0.neighbors a).length = (g1.neighbors a').length ∧
    (g0.directed = true →
      (g0.neighbors_incoming a).length = (g1.neighbors_incoming a').length)

/-! ## Concrete fixtures for witnesses and counterexamples -/

/-- A concrete matching state: node 0 mapped, node 1 unmapped with out-marker
5; exhibits the slice-offset return convention of the scans. -/
def stC6 : Vf2State where
  mapping := [some 1, none]
  out := [0, 5]
  ins := []
  out_size := 1
  ins_size := 0
  adjacency_matrix := fun _ _ => false
  generation := 1
  directed := false

/-- A 1-node state with its single node unmapped and an empty frontier. -/
def stC7a : Vf2State where
  mapping := [none]
  out := [0]
  ins := []
  out_size := 0
  ins_size := 0
  adjacency_matrix := fun _ _ => false
  generation := 0
  directed := false

/-- A 1-node state with its single node mapped; no scan can yield a
candidate from it. -/
def stC7b : Vf2State where
  mapping := [some 0]
  out := [0]
  ins := []
  out_size := 0
  ins_size := 0
  adjacency_matrix := fun _ _ => false
  generation := 1
  directed := false

/-- A 1-node undirected graph with no edges. -/
def gOne : Graph := { node_count := 1, edges := [], directed := false }

/-- A 2-node undirected graph with no edges. -/
def gTwo : Graph := { node_count := 2, edges := [], directed := false }

/-- A 2-node directed graph with the single edge `0 → 1`. -/
def gEdge : Graph := { node_count := 2, edges := [(0, 1)], directed := true }

/-- A 2-node undirected graph with the single edge `0 — 1`. -/
def gEdgeU : Graph := { node_count := 2, edges := [(0, 1)], directed := false }

/-- A 3-node directed out-star: `0 → 1`, `0 → 2`. -/
def gStar : Graph := { node_count := 3, edges := [(0, 1), (0, 2)], directed := true }

/-- A 3-node directed path: `0 → 1`, `1 → 2`; same node and edge counts as
`gStar` but not isomorphic to it. -/
def gPath : Graph := { node_count := 3, edges := [(0, 1), (1, 2)], directed := true }

/-! ## Theorems -/

/-! ### Characterization of the three scans -/

lemma enum_filter_head_eq_firstHit (P : Nat × α → Bool) (l : List α) :
    ∀ n, ((List.enumFrom n l).filter P).head? = firstHit (fun i a => P (i, a)) n l := by
  induction l with
  | nil => intro n; rfl
  | cons x xs ih =>
    intro n
    simp only [List.enumFrom_cons, List.filter_cons, firstHit]
    by_cases h : P (n, x)
    · rw [if_pos h, if_pos h, List.head?_cons]
    · rw [if_neg h, if_neg h, ih (n + 1)]

lemma firstHit_eq_some_iff (p : Nat → α → Bool) :
    ∀ (l : List α) (n k : Nat) (a : α),
      firstHit p n l = some (k, a) ↔
        ∃ k', k = n + k' ∧ l[k']? = some a ∧ p k a = true ∧
          ∀ j, j < k' → ∀ b, l[j]? = some b → p (n + j) b = false := by
  intro l
  induction l with
  | nil => intro n k a; simp [firstHit]
  | cons x xs ih =>
    intro n k a
    simp only [firstHit]
    by_cases h : p n x
    · rw [if_pos h]
      constructor
      · intro he
        have hk : n = k := congrArg Prod.fst (Option.some.inj he)
        have hx : x = a := congrArg Prod.snd (Option.some.inj he)
        subst hk; subst hx
        exact ⟨0, rfl, by simp, h, by intro j hj; exact absurd hj (Nat.not_lt_zero j)⟩
      · rintro ⟨k', hk, hget, hp, hmin⟩
        rcases Nat.eq_zero_or_pos k' with h0 | h0
        · subst h0
          simp only [List.getElem?_cons_zero, Option.some.injEq] at hget
          subst hget
          subst hk
          rfl
        · have h0' := hmin 0 h0 x (by simp)
          rw [Nat.add_zero, h] at h0'
          simp at h0'
    · have hf : p n x = false := by simpa using h
      rw [if_neg h, ih]
      constructor
      · rintro ⟨k', hk, hget, hp, hmin⟩
        refine ⟨k' + 1, by omega, by simpa using hget, hp, ?_⟩
        intro j hj b hb
        cases j with
        | zero =>
          simp only [List.getElem?_cons_zero, Option.some.injEq] at hb
          subst hb
          rw [Nat.add_zero]
          exact hf
        | succ j =>
          have hres := hmin j (by omega) b (by simpa using hb)
          have heq : n + (j + 1) = n + 1 + j := by omega
          rw [heq]
          exact hres
      · rintro ⟨k', hk, hget, hp, hmin⟩
        rcases Nat.eq_zero_or_pos k' with h0 | h0
        · subst h0
          simp only [List.getElem?_cons_zero, Option.some.injEq] at hget
          subst hget
          subst hk
          simp [hf] at hp
        · obtain ⟨k'', rfl⟩ : ∃ k'', k' = k'' + 1 := ⟨k' - 1, by omega⟩
          refine ⟨k'', by omega, by simpa using hget, hp, ?_⟩
          intro j hj b hb
          have hres := hmin (j + 1) (by omega) b (by simpa using hb)
          have heq : n + 1 + j = n + (j + 1) := by omega
          rw [heq]
          exact hres

lemma firstHit_eq_none_iff (p : Nat → α → Bool) :
    ∀ (l : List α) (n : Nat),
      firstHit p n l = none ↔ ∀ j b, l[j]? = some b → p (n + j) b = false := by
  intro l
  induction l with
  | nil => intro n; simp [firstHit]
  | cons x xs ih =>
    intro n
    simp only [firstHit]
    by_cases h : p n x
    · rw [if_pos h]
      constructor
      · intro he; exact absurd he (by simp)
      · intro hall
        have h0 := hall 0 x (by simp)
        rw [Nat.add_zero, h] at h0
        simp at h0
    · have hf : p n x = false := by simpa using h
      rw [if_neg h, ih]
      constructor
      · intro hall j b hb
        cases j with
        | zero =>
          simp only [List.getElem?_cons_zero, Option.some.injEq] at hb
          subst hb
          rw [Nat.add_zero]
          exact hf
        | succ j =>
          have hres := hall j b (by simpa using hb)
          have heq : n + (j + 1) = n + 1 + j := by omega
          rw [heq]
          exact hres
      · intro hall j b hb
        have hres := hall (j + 1) b (by simpa using hb)
        have heq : n + 1 + j = n + (j + 1) := by omega
        rw [heq]
        exact hres

lemma marker_scan_eq_some_iff (o : List Nat) (mp : List (Option Nat)) (f r : Nat) :
    ((((o.drop f).enum.filter
        (fun p => decide (0 < p.2) && (mp.getD (f + p.1) none).isNone)).head?).map
      (fun p => p.1) = some r) ↔
      ((f + r < o.length ∧ 0 < o.getD (f + r) 0 ∧ mp.getD (f + r) none = none) ∧
        ∀ j, f ≤ j → j < f + r →
          ¬(j < o.length ∧ 0 < o.getD j 0 ∧ mp.getD j none = none)) := by
  rw [show (o.drop f).enum = List.enumFrom 0 (o.drop f) from rfl,
      enum_filter_head_eq_firstHit]
  constructor
  · intro h
    obtain ⟨⟨k, a⟩, hfh, hfst⟩ := Option.map_eq_some'.mp h
    simp only at hfst
    rw [firstHit_eq_some_iff] at hfh
    obtain ⟨k', hk, hget, hp, hmin⟩ := hfh
    have hrk : r = k' := by omega
    subst hrk
    rw [hfst] at hp
    rw [List.getElem?_drop] at hget
    obtain ⟨hlt, hval⟩ := List.getElem?_eq_some.mp hget
    have hgetD : o.getD (f + r) 0 = a := by
      rw [List.getD_eq_getElem o 0 hlt, hval]
    simp only [Bool.and_eq_true, decide_eq_true_eq, Option.isNone_iff_eq_none] at hp
    refine ⟨⟨hlt, by rw [hgetD]; exact hp.1, hp.2⟩, ?_⟩
    intro j hfj hjr hQ
    have hres := hmin (j - f) (by omega) (o.getD j 0)
      (by rw [List.getElem?_drop, show f + (j - f) = j by omega]
          exact List.getElem?_eq_some.mpr ⟨hQ.1, (List.getD_eq_getElem o 0 hQ.1).symm⟩)
    have harith : f + (0 + (j - f)) = j := by omega
    simp only [harith] at hres
    simp [hQ.2.1, hQ.2.2] at hres
    have h1 : 0 < o[j]?.getD 0 := by
      rw [← List.getD_eq_getElem?_getD]
      exact hQ.2.1
    have h2 := hres h1
    rw [← List.getD_eq_getElem?_getD, hQ.2.2] at h2
    simp at h2
  · rintro ⟨⟨hlt, hpos, hnone⟩, hmin⟩
    apply Option.map_eq_some'.mpr
    refine ⟨(r, o.getD (f + r) 0), ?_, rfl⟩
    rw [firstHit_eq_some_iff]
    refine ⟨r, by omega, ?_, ?_, ?_⟩
    · rw [List.getElem?_drop]
      exact List.getElem?_eq_some.mpr ⟨hlt, (List.getD_eq_getElem o 0 hlt).symm⟩
    · simp only [Bool.and_eq_true, decide_eq_true_eq, Option.isNone_iff_eq_none]
      exact ⟨hpos, hnone⟩
    · intro j hj b hb
      rw [List.getElem?_drop] at hb
      obtain ⟨hblt, hbval⟩ := List.getElem?_eq_some.mp hb
      have hres := hmin (f + j) (by omega) (by omega)
      have hbgetD : o.getD (f + j) 0 = b := by rw [List.getD_eq_getElem o 0 hblt, hbval]
      apply Bool.eq_false_iff.mpr
      intro hcontra
      simp only [Nat.zero_add, Bool.and_eq_true, decide_eq_true_eq,
        Option.isNone_iff_eq_none] at hcontra
      exact hres ⟨hblt, by rw [hbgetD]; exact hcontra.1, hcontra.2⟩

lemma marker_scan_eq_none_iff (o : List Nat) (mp : List (Option Nat)) (f : Nat) :
    ((((o.drop f).enum.filter
        (fun p => decide (0 < p.2) && (mp.getD (f + p.1) none).isNone)).head?).map
      (fun p => p.1) = none) ↔
      ∀ j, f ≤ j → ¬(j < o.length ∧ 0 < o.getD j 0 ∧ mp.getD j none = none) := by
  rw [show (o.drop f).enum = List.enumFrom 0 (o.drop f) from rfl,
      enum_filter_head_eq_firstHit, Option.map_eq_none', firstHit_eq_none_iff]
  constructor
  · intro h j hfj hQ
    have hres := h (j - f) (o.getD j 0)
      (by rw [List.getElem?_drop, show f + (j - f) = j by omega]
          exact List.getElem?_eq_some.mpr ⟨hQ.1, (List.getD_eq_getElem o 0 hQ.1).symm⟩)
    have harith : f + (0 + (j - f)) = j := by omega
    simp only [harith] at hres
    simp [hQ.2.1, hQ.2.2] at hres
    have h1 : 0 < o[j]?.getD 0 := by
      rw [← List.getD_eq_getElem?_getD]
      exact hQ.2.1
    have h2 := hres h1
    rw [← List.getD_eq_getElem?_getD, hQ.2.2] at h2
    simp at h2
  · intro h j b hb
    rw [List.getElem?_drop] at hb
    obtain ⟨hblt, hbval⟩ := List.getElem?_eq_some.mp hb
    have hres := h (f + j) (by omega)
    have hbgetD : o.getD (f + j) 0 = b := by rw [List.getD_eq_getElem o 0 hblt, hbval]
    apply Bool.eq_false_iff.mpr
    intro hcontra
    simp only [Nat.zero_add, Bool.and_eq_true, decide_eq_true_eq,
      Option.isNone_iff_eq_none] at hcontra
    exact hres ⟨hblt, by rw [hbgetD]; exact hcontra.1, hcontra.2⟩

lemma rest_scan_eq_some_iff (mp : List (Option Nat)) (f r : Nat) :
    ((((mp.drop f).enum.filter (fun p => p.2.isNone)).head?).map
      (fun p => p.1) = some r) ↔
      ((f + r < mp.length ∧ mp.getD (f + r) none = none) ∧
        ∀ j, f ≤ j → j < f + r → ¬(j < mp.length ∧ mp.getD j none = none)) := by
  rw [show (mp.drop f).enum = List.enumFrom 0 (mp.drop f) from rfl,
      enum_filter_head_eq_firstHit]
  constructor
  · intro h
    obtain ⟨⟨k, a⟩, hfh, hfst⟩ := Option.map_eq_some'.mp h
    simp only at hfst
    rw [firstHit_eq_some_iff] at hfh
    obtain ⟨k', hk, hget, hp, hmin⟩ := hfh
    have hrk : r = k' := by omega
    subst hrk
    rw [List.getElem?_drop] at hget
    obtain ⟨hlt, hval⟩ := List.getElem?_eq_some.mp hget
    simp only [Option.isNone_iff_eq_none] at hp
    have hgetD : mp.getD (f + r) none = none := by
      rw [List.getD_eq_getElem mp none hlt, hval]
      exact hp
    refine ⟨⟨hlt, hgetD⟩, ?_⟩
    intro j hfj hjr hQ
    have hres := hmin (j - f) (by omega) (mp.getD j none)
      (by rw [List.getElem?_drop, show f + (j - f) = j by omega]
          exact List.getElem?_eq_some.mpr ⟨hQ.1, (List.getD_eq_getElem mp none hQ.1).symm⟩)
    simp [hQ.2] at hres
    rw [← List.getD_eq_getElem?_getD, hQ.2] at hres
    simp at hres
  · rintro ⟨⟨hlt, hnone⟩, hmin⟩
    apply Option.map_eq_some'.mpr
    refine ⟨(r, mp.getD (f + r) none), ?_, rfl⟩
    rw [firstHit_eq_some_iff]
    refine ⟨r, by omega, ?_, ?_, ?_⟩
    · rw [List.getElem?_drop]
      exact List.getElem?_eq_some.mpr ⟨hlt, (List.getD_eq_getElem mp none hlt).symm⟩
    · simp only [Option.isNone_iff_eq_none]
      exact hnone
    · intro j hj b hb
      rw [List.getElem?_drop] at hb
      obtain ⟨hblt, hbval⟩ := List.getElem?_eq_some.mp hb
      have hres := hmin (f + j) (by omega) (by omega)
      have hbgetD : mp.getD (f + j) none = b := by
        rw [List.getD_eq_getElem mp none hblt, hbval]
      apply Bool.eq_false_iff.mpr
      intro hcontra
      simp only [Option.isNone_iff_eq_none] at hcontra
      exact hres ⟨hblt, by rw [hbgetD]; exact hcontra⟩

lemma rest_scan_eq_none_iff (mp : List (Option Nat)) (f : Nat) :
    ((((mp.drop f).enum.filter (fun p => p.2.isNone)).head?).map
      (fun p => p.1) = none) ↔
      ∀ j, f ≤ j → ¬(j < mp.length ∧ mp.getD j none = none) := by
  rw [show (mp.drop f).enum = List.enumFrom 0 (mp.drop f) from rfl,
      enum_filter_head_eq_firstHit, Option.map_eq_none', firstHit_eq_none_iff]
  constructor
  · intro h j hfj hQ
    have hres := h (j - f) (mp.getD j none)
      (by rw [List.getElem?_drop, show f + (j - f) = j by omega]
          exact List.getElem?_eq_some.mpr ⟨hQ.1, (List.getD_eq_getElem mp none hQ.1).symm⟩)
    simp [hQ.2] at hres
    rw [← List.getD_eq_getElem?_getD, hQ.2] at hres
    simp at hres
  · intro h j b hb
    rw [List.getElem?_drop] at hb
    obtain ⟨hblt, hbval⟩ := List.getElem?_eq_some.mp hb
    have hres := h (f + j) (by omega)
    have hbgetD : mp.getD (f + j) none = b := by
      rw [List.getD_eq_getElem mp none hblt, hbval]
    apply Bool.eq_false_iff.mpr
    intro hcontra
    simp only [Option.isNone_iff_eq_none] at hcontra
    exact hres ⟨hblt, by rw [hbgetD]; exact hcontra⟩

lemma next_out_index_eq_some_iff (st : Vf2State) (f r : Nat) :
    st.next_out_index f = some r ↔
      QOut st (f + r) ∧ ∀ j, f ≤ j → j < f + r → ¬ QOut st j := by
  unfold Vf2State.next_out_index QOut
  exact marker_scan_eq_some_iff st.out st.mapping f r

lemma next_out_index_eq_none_iff (st : Vf2State) (f : Nat) :
    st.next_out_index f = none ↔ ∀ j, f ≤ j → ¬ QOut st j := by
  unfold Vf2State.next_out_index QOut
  exact marker_scan_eq_none_iff st.out st.mapping f

lemma next_in_index_eq_some_iff (st : Vf2State) (f r : Nat) (hd : st.directed = true) :
    st.next_in_index f = some r ↔
      QIn st (f + r) ∧ ∀ j, f ≤ j → j < f + r → ¬ QIn st j := by
  unfold Vf2State.next_in_index QIn
  rw [hd]
  simp only [Bool.not_true, Bool.false_eq_true, if_false]
  exact marker_scan_eq_some_iff st.ins st.mapping f r

lemma next_in_index_eq_none_iff (st : Vf2State) (f : Nat) (hd : st.directed = true) :
    st.next_in_index f = none ↔ ∀ j, f ≤ j → ¬ QIn st j := by
  unfold Vf2State.next_in_index QIn
  rw [hd]
  simp only [Bool.not_true, Bool.false_eq_true, if_false]
  exact marker_scan_eq_none_iff st.ins st.mapping f

lemma next_in_index_undirected (st : Vf2State) (f : Nat) (hd : st.directed = false) :
    st.next_in_index f = none := by
  unfold Vf2State.next_in_index
  rw [hd]
  rfl

lemma next_rest_index_eq_some_iff (st : Vf2State) (f r : Nat) :
    st.next_rest_index f = some r ↔
      QRest st (f + r) ∧ ∀ j, f ≤ j → j < f + r → ¬ QRest st j := by
  unfold Vf2State.next_rest_index QRest
  exact rest_scan_eq_some_iff st.mapping f r

lemma next_rest_index_eq_none_iff (st : Vf2State) (f : Nat) :
    st.next_rest_index f = none ↔ ∀ j, f ≤ j → ¬ QRest st j := by
  unfold Vf2State.next_rest_index QRest
  exact rest_scan_eq_none_iff st.mapping f

lemma next_out_index_some_unmapped (st : Vf2State) (f r : Nat)
    (h : st.next_out_index f = some r) :
    st.mapping.getD (f + r) none = none ∧ f + r < st.out.length := by
  have := (next_out_index_eq_some_iff st f r).mp h
  exact ⟨this.1.2.2, this.1.1⟩

lemma next_in_index_some_unmapped (st : Vf2State) (f r : Nat)
    (h : st.next_in_index f = some r) :
    st.mapping.getD (f + r) none = none ∧ f + r < st.ins.length := by
  cases hd : st.directed
  · rw [next_in_index_undirected st f hd] at h
    exact absurd h (by simp)
  · have := (next_in_index_eq_some_iff st f r hd).mp h
    exact ⟨this.1.2.2, this.1.1⟩

lemma next_rest_index_some_unmapped (st : Vf2State) (f r : Nat)
    (h : st.next_rest_index f = some r) :
    st.mapping.getD (f + r) none = none ∧ f + r < st.mapping.length := by
  have := (next_rest_index_eq_some_iff st f r).mp h
  exact ⟨this.1.2, this.1.1⟩

/-! ### Claim C6: what the scans return -/

/-- C6, corrected.  Each scan finds the smallest qualifying node index at or
after `from_index`, but it returns the *offset* of that index within the
scanned slice (the smallest qualifying index minus `from_index`), not the
index itself; callers compensate by adding `from_index` back.  Each returns
`none` when no qualifying index exists (and `next_in_index` returns `none`
outright for an undirected edge type). -/
theorem claim_C6 (st : Vf2State) (f : Nat) :
    (∀ r, st.next_out_index f = some r ↔
        QOut st (f + r) ∧ ∀ j, f ≤ j → j < f + r → ¬ QOut st j) ∧
    (st.next_out_index f = none ↔ ∀ j, f ≤ j → ¬ QOut st j) ∧
    (st.directed = true →
      (∀ r, st.next_in_index f = some r ↔
          QIn st (f + r) ∧ ∀ j, f ≤ j → j < f + r → ¬ QIn st j) ∧
      (st.next_in_index f = none ↔ ∀ j, f ≤ j → ¬ QIn st j)) ∧
    (st.directed = false → st.next_in_index f = none) ∧
    (∀ r, st.next_rest_index f = some r ↔
        QRest st (f + r) ∧ ∀ j, f ≤ j → j < f + r → ¬ QRest st j) ∧
    (st.next_rest_index f = none ↔ ∀ j, f ≤ j → ¬ QRest st j) := by
  refine ⟨fun r => next_out_index_eq_some_iff st f r,
          next_out_index_eq_none_iff st f,
          fun hd => ⟨fun r => next_in_index_eq_some_iff st f r hd,
                     next_in_index_eq_none_iff st f hd⟩,
          fun hd => next_in_index_undirected st f hd,
          fun r => next_rest_index_eq_some_iff st f r,
          next_rest_index_eq_none_iff st f⟩

/-- C6, counterexample to the claim as stated: in `stC6` the smallest node
index at or after `from_index = 1` that is an unmapped out-frontier member
is `1` itself (index `0` does not qualify), yet `next_out_index 1` returns
`some 0` — the slice offset — and not `some 1`. -/
theorem claim_C6_counterexample :
    stC6.next_out_index 1 = some 0 ∧ stC6.next_out_index 1 ≠ some 1 ∧
      QOut stC6 1 ∧ ¬ QOut stC6 0 := by decide

/-- C6 witness: the corrected characterization evaluated on the concrete
state `stC6`. -/
theorem claim_C6_witness :
    stC6.next_in_index 0 = none ∧ QRest stC6 (0 + 1) :=
  ⟨(claim_C6 stC6 0).2.2.2.1 rfl,
   (((claim_C6 stC6 0).2.2.2.2.1 1).mp (by decide)).1⟩

/-! ### Claim C3: cheap rejection on count mismatch -/

/-- C3: when node counts or edge counts differ, `is_isomorphic` returns
`false` without invoking the recursive search — the same `false` results
for an arbitrary search function in place of `try_match`. -/
theorem claim_C3 (g0 g1 : Graph)
    (h : g0.node_count ≠ g1.node_count ∨ g0.edge_count ≠ g1.edge_count) :
    is_isomorphic g0 g1 = false ∧
      ∀ search : Graph → Graph → Option Bool,
        is_isomorphic_with search g0 g1 = false := by
  have hb : (g0.node_count != g1.node_count || g0.edge_count != g1.edge_count) = true := by
    rcases h with h | h <;> simp [h]
  constructor
  · unfold is_isomorphic is_isomorphic_with
    rw [if_pos hb]
  · intro search
    unfold is_isomorphic_with
    rw [if_pos hb]

/-- C3 witness: a 1-node and a 2-node graph are rejected outright. -/
theorem claim_C3_witness :
    is_isomorphic gOne gTwo = false ∧
      ∀ search : Graph → Graph → Option Bool,
        is_isomorphic_with search gOne gTwo = false :=
  claim_C3 gOne gTwo (Or.inl (by decide))

/-! ### Claim C9: the post-commit size check is vacuous -/

lemma size_check_true (st0 st1 : Vf2State) : size_check st0 st1 = true := by
  simp [size_check]

lemma candidates_loop_nocheck_eq (g0 g1 : Graph)
    (recurse : Vf2State → Vf2State → Option Bool × Vf2State × Vf2State)
    (list : OpenList) (mx : Nat) :
    ∀ cfuel nx st0 st1,
      candidates_loop g0 g1 recurse list mx cfuel nx st0 st1 =
        candidates_loop_nocheck g0 g1 recurse list mx cfuel nx st0 st1 := by
  intro cfuel
  induction cfuel with
  | zero => intro nx st0 st1; rfl
  | succ cfuel ih =>
    intro nx st0 st1
    simp only [candidates_loop, candidates_loop_nocheck, size_check_true, if_true]
    by_cases hf : feasible g0 g1 st0 st1 nx mx
    · rw [if_pos hf, if_pos hf]
      split
      · rfl
      · split
        · rfl
        · apply ih
    · rw [if_neg hf, if_neg hf]
      split
      · rfl
      · apply ih

/-- C9: the post-commit size sanity check compares each counter with itself
and is `true` in every state, so the driver equals a driver that recurses
unconditionally after each commit. -/
theorem claim_C9 :
    (∀ st0 st1 : Vf2State, size_check st0 st1 = true) ∧
    ∀ (g0 g1 : Graph) (fuel : Nat) (st0 st1 : Vf2State),
      try_match g0 g1 fuel st0 st1 = try_match_nocheck g0 g1 fuel st0 st1 := by
  refine ⟨size_check_true, fun g0 g1 fuel => ?_⟩
  induction fuel with
  | zero => intro st0 st1; rfl
  | succ fuel ih =>
    intro st0 st1
    simp only [try_match, try_match_nocheck]
    by_cases hc : st0.is_complete
    · rw [if_pos hc, if_pos hc]
    · rw [if_neg hc, if_neg hc]
      rcases hsel : select_candidates st0 st1 with _ | ⟨c0, c1, l⟩
      · rfl
      · show candidates_loop g0 g1 (fun s0 s1 => try_match g0 g1 fuel s0 s1) l c1
            (st0.mapping.length + st0.out.length + 1) c0 st0 st1 =
          candidates_loop_nocheck g0 g1 (fun s0 s1 => try_match_nocheck g0 g1 fuel s0 s1) l c1
            (st0.mapping.length + st0.out.length + 1) c0 st0 st1
        rw [candidates_loop_nocheck_eq]
        have hfun : (fun s0 s1 => try_match g0 g1 fuel s0 s1) =
            (fun s0 s1 => try_match_nocheck g0 g1 fuel s0 s1) :=
          funext fun s0 => funext fun s1 => ih s0 s1
        rw [hfun]

/-! ### Claim C10: the search never decides `false` -/

lemma candidates_loop_ne_some_false (g0 g1 : Graph)
    (recurse : Vf2State → Vf2State → Option Bool × Vf2State × Vf2State)
    (list : OpenList) (mx : Nat)
    (hrec : ∀ s0 s1, (recurse s0 s1).1 ≠ some false) :
    ∀ cfuel nx st0 st1,
      (candidates_loop g0 g1 recurse list mx cfuel nx st0 st1).1 ≠ some false := by
  intro cfuel
  induction cfuel with
  | zero => intro nx st0 st1; simp [candidates_loop]
  | succ cfuel ih =>
    intro nx st0 st1
    simp only [candidates_loop, size_check_true, if_true]
    by_cases hf : feasible g0 g1 st0 st1 nx mx
    · rw [if_pos hf]
      split
      · next r s0 s1 heq =>
          intro hcon
          simp only at hcon
          apply hrec (st0.push_mapping nx mx g0) (st1.push_mapping mx nx g1)
          rw [heq, hcon]
      · next s0 s1 heq =>
          split
          · simp
          · apply ih
    · rw [if_neg hf]
      split
      · simp
      · apply ih

lemma try_match_ne_some_false (g0 g1 : Graph) :
    ∀ fuel st0 st1, (try_match g0 g1 fuel st0 st1).1 ≠ some false := by
  intro fuel
  induction fuel with
  | zero => intro st0 st1; simp [try_match]
  | succ fuel ih =>
    intro st0 st1
    simp only [try_match]
    by_cases hc : st0.is_complete
    · rw [if_pos hc]; simp
    · rw [if_neg hc]
      rcases hsel : select_candidates st0 st1 with _ | ⟨c0, c1, l⟩
      · simp
      · exact candidates_loop_ne_some_false g0 g1 _ l c1 ih _ c0 st0 st1

/-- C10: `try_match` never returns `Some(false)` — its result is `some true`
or `none` — so `is_isomorphic` returns `false` only through the top-level
count mismatch or through `none` at the root of the search. -/
theorem claim_C10 (g0 g1 : Graph) :
    (∀ fuel st0 st1, (try_match g0 g1 fuel st0 st1).1 ≠ some false) ∧
    (is_isomorphic g0 g1 = false →
      (g0.node_count ≠ g1.node_count ∨ g0.edge_count ≠ g1.edge_count) ∨
      (try_match g0 g1 (g0.node_count + 1)
        (Vf2State.new g0) (Vf2State.new g1)).1 = none) := by
  refine ⟨try_match_ne_some_false g0 g1, fun hfalse => ?_⟩
  by_cases hb : (g0.node_count != g1.node_count || g0.edge_count != g1.edge_count) = true
  · left
    simp only [Bool.or_eq_true, bne_iff_ne] at hb
    exact hb
  · right
    unfold is_isomorphic is_isomorphic_with at hfalse
    rw [if_neg hb] at hfalse
    simp only at hfalse
    rcases hroot : (try_match g0 g1 (g0.node_count + 1)
        (Vf2State.new g0) (Vf2State.new g1)).1 with _ | b
    · rfl
    · rw [hroot] at hfalse
      cases b
      · exact absurd hroot (try_match_ne_some_false g0 g1 _ _ _)
      · simp at hfalse

/-- C10 witness: on the concrete non-isomorphic pair `gStar`/`gPath` (equal
node and edge counts), the negative decision comes from `none` at the root. -/
theorem claim_C10_witness :
    (try_match gStar gPath 2 (Vf2State.new gStar) (Vf2State.new gPath)).1 ≠ some false ∧
    ((gStar.node_count ≠ gPath.node_count ∨ gStar.edge_count ≠ gPath.edge_count) ∨
      (try_match gStar gPath (gStar.node_count + 1)
        (Vf2State.new gStar) (Vf2State.new gPath)).1 = none) :=
  ⟨(claim_C10 gStar gPath).1 2 _ _, (claim_C10 gStar gPath).2 (by decide)⟩

/-! ### Push/pop closed forms and marker algebra (claims C4, C5) -/

lemma list_getD_set (l : List α) (k i : Nat) (v d : α) :
    (l.set k v).getD i d = if k = i ∧ k < l.length then v else l.getD i d := by
  simp only [List.getD_eq_getElem?_getD, List.getElem?_set]
  by_cases hk : k = i
  · subst hk
    by_cases hl : k < l.length
    · simp [hl]
    · simp [hl, List.getElem?_eq_none (Nat.le_of_not_lt hl)]
  · simp [hk]

lemma list_eq_of_getD (l1 l2 : List Nat) (hlen : l1.length = l2.length)
    (h : ∀ i, l1.getD i 0 = l2.getD i 0) : l1 = l2 := by
  apply List.ext_getElem hlen
  intro i h1 h2
  have hi := h i
  rwa [List.getD_eq_getElem l1 0 h1, List.getD_eq_getElem l2 0 h2] at hi

lemma mark_list_length (s : Nat) (l : List Nat) :
    ∀ o : List Nat, (mark_list s l o).length = o.length := by
  induction l with
  | nil => intro o; rfl
  | cons x xs ih =>
    intro o
    show (mark_list s xs (if o.getD x 0 = 0 then o.set x s else o)).length = o.length
    rw [ih]
    by_cases hx : o.getD x 0 = 0
    · rw [if_pos hx, List.length_set]
    · rw [if_neg hx]

lemma unmark_list_length (s : Nat) (l : List Nat) :
    ∀ o : List Nat, (unmark_list s l o).length = o.length := by
  induction l with
  | nil => intro o; rfl
  | cons x xs ih =>
    intro o
    show (unmark_list s xs (if o.getD x 0 = s then o.set x 0 else o)).length = o.length
    rw [ih]
    by_cases hx : o.getD x 0 = s
    · rw [if_pos hx, List.length_set]
    · rw [if_neg hx]

lemma mark_list_getD (s : Nat) (hs : s ≠ 0) (l : List Nat) :
    ∀ (o : List Nat) (i : Nat),
      (mark_list s l o).getD i 0 =
        if i ∈ l ∧ o.getD i 0 = 0 ∧ i < o.length then s else o.getD i 0 := by
  induction l with
  | nil => intro o i; simp [mark_list]
  | cons x xs ih =>
    intro o i
    show (mark_list s xs (if o.getD x 0 = 0 then o.set x s else o)).getD i 0 = _
    by_cases hx0 : o.getD x 0 = 0
    · rw [if_pos hx0, ih (o.set x s) i, list_getD_set, List.length_set]
      by_cases hxi : x = i
      · subst hxi
        by_cases hlen : x < o.length
        · have hx0' : o[x] = 0 := by rw [← List.getD_eq_getElem o 0 hlen]; exact hx0
          simp [hlen, hx0, hs, hx0']
        · simp [hlen, hx0]
      · have hix : ¬ i = x := fun h => hxi h.symm
        simp [List.mem_cons, hxi, hix]
    · rw [if_neg hx0, ih o i]
      by_cases hxi : x = i
      · subst hxi
        have hx0' : ¬ o[x]?.getD 0 = 0 := by rw [← List.getD_eq_getElem?_getD]; exact hx0
        simp [hx0, hx0']
      · have hix : ¬ i = x := fun h => hxi h.symm
        simp [List.mem_cons, hix]

lemma unmark_list_getD (s : Nat) (l : List Nat) :
    ∀ (o : List Nat) (i : Nat),
      (unmark_list s l o).getD i 0 =
        if i ∈ l ∧ o.getD i 0 = s ∧ i < o.length then 0 else o.getD i 0 := by
  induction l with
  | nil => intro o i; simp [unmark_list]
  | cons x xs ih =>
    intro o i
    show (unmark_list s xs (if o.getD x 0 = s then o.set x 0 else o)).getD i 0 = _
    by_cases hx0 : o.getD x 0 = s
    · rw [if_pos hx0, ih (o.set x 0) i, list_getD_set, List.length_set]
      by_cases hxi : x = i
      · subst hxi
        by_cases hlen : x < o.length
        · have hx0' : o[x] = s := by rw [← List.getD_eq_getElem o 0 hlen]; exact hx0
          simp [hlen, hx0, hx0']
        · simp [hlen, hx0]
      · have hix : ¬ i = x := fun h => hxi h.symm
        simp [List.mem_cons, hxi, hix]
    · rw [if_neg hx0, ih o i]
      by_cases hxi : x = i
      · subst hxi
        have hx0' : ¬ o[x]?.getD 0 = s := by rw [← List.getD_eq_getElem?_getD]; exact hx0
        simp [hx0, hx0']
      · have hix : ¬ i = x := fun h => hxi h.symm
        simp [List.mem_cons, hix]

lemma unmark_mark_roundtrip (s : Nat) (hs : 0 < s) (l o : List Nat)
    (hm : ∀ i ∈ l, o.getD i 0 < s) :
    unmark_list s l (mark_list s l o) = o := by
  apply list_eq_of_getD
  · rw [unmark_list_length, mark_list_length]
  · intro i
    rw [unmark_list_getD, mark_list_getD s (by omega) l o i, mark_list_length]
    by_cases hmem : i ∈ l
    · by_cases h0 : o.getD i 0 = 0
      · by_cases hlen : i < o.length
        · have h0' : o[i] = 0 := by rw [← List.getD_eq_getElem o 0 hlen]; exact h0
          simp [hmem, h0, hlen, h0']
        · simp [hmem, h0, hlen]
      · have hlt := hm i hmem
        have hne : ¬ o.getD i 0 = s := by omega
        have hne' : ¬ o[i]?.getD 0 = s := by
          rw [← List.getD_eq_getElem?_getD]; exact hne
        have h0' : ¬ o[i]?.getD 0 = 0 := by
          rw [← List.getD_eq_getElem?_getD]; exact h0
        simp [hmem, h0, hne, hne', h0']
    · simp [hmem]

lemma foldl_mark_out (s : Nat) (l : List Nat) :
    ∀ a : Vf2State,
      l.foldl (Vf2State.mark_out s) a =
        { a with out := mark_list s l a.out, out_size := a.out_size + l.length } := by
  induction l with
  | nil => intro a; simp [mark_list]
  | cons x xs ih =>
    intro a
    rw [List.foldl_cons, ih]
    cases a
    simp only [Vf2State.mark_out, mark_list, List.foldl_cons, List.length_cons,
      Vf2State.mk.injEq, and_true, true_and]
    all_goals first | trivial | omega

lemma foldl_mark_ins (s : Nat) (l : List Nat) :
    ∀ a : Vf2State,
      l.foldl (Vf2State.mark_ins s) a =
        { a with ins := mark_list s l a.ins } := by
  induction l with
  | nil => intro a; simp [mark_list]
  | cons x xs ih =>
    intro a
    rw [List.foldl_cons, ih]
    cases a
    simp only [Vf2State.mark_ins, mark_list, List.foldl_cons, Vf2State.mk.injEq,
      and_true, true_and]

lemma foldl_unmark_out (s : Nat) (l : List Nat) :
    ∀ a : Vf2State,
      l.foldl (Vf2State.unmark_out s) a =
        { a with out := unmark_list s l a.out, out_size := a.out_size - l.length } := by
  induction l with
  | nil => intro a; simp [unmark_list]
  | cons x xs ih =>
    intro a
    rw [List.foldl_cons, ih]
    cases a
    simp only [Vf2State.unmark_out, unmark_list, List.foldl_cons, List.length_cons,
      Vf2State.mk.injEq, and_true, true_and]
    all_goals first | trivial | omega

lemma foldl_unmark_ins (s : Nat) (l : List Nat) :
    ∀ a : Vf2State,
      l.foldl (Vf2State.unmark_ins s) a =
        { a with ins := unmark_list s l a.ins } := by
  induction l with
  | nil => intro a; simp [unmark_list]
  | cons x xs ih =>
    intro a
    rw [List.foldl_cons, ih]
    cases a
    simp only [Vf2State.unmark_ins, unmark_list, List.foldl_cons, Vf2State.mk.injEq,
      and_true, true_and]

lemma push_mapping_eq_directed (st : Vf2State) (fr t : Nat) (g : Graph)
    (hd : g.directed = true) :
    st.push_mapping fr t g =
      { st with
        generation := st.generation + 1,
        mapping := st.mapping.set fr (some t),
        out := mark_list (st.generation + 1) (g.neighbors fr) st.out,
        out_size := st.out_size + (g.neighbors fr).length,
        ins := mark_list (st.generation + 1) (g.neighbors_incoming fr) st.ins,
        ins_size := st.ins_size + 1 } := by
  unfold Vf2State.push_mapping
  rw [hd]
  simp only [if_true]
  rw [foldl_mark_out, foldl_mark_ins]

lemma push_mapping_eq_undirected (st : Vf2State) (fr t : Nat) (g : Graph)
    (hd : g.directed = false) :
    st.push_mapping fr t g =
      { st with
        generation := st.generation + 1,
        mapping := st.mapping.set fr (some t),
        out := mark_list (st.generation + 1) (g.neighbors fr) st.out,
        out_size := st.out_size + (g.neighbors fr).length } := by
  unfold Vf2State.push_mapping
  rw [hd]
  simp only [Bool.false_eq_true, if_false]
  rw [foldl_mark_out]

lemma pop_mapping_eq_directed (st : Vf2State) (fr : Nat) (g : Graph)
    (hd : g.directed = true) :
    st.pop_mapping fr g =
      { st with
        generation := st.generation - 1,
        mapping := st.mapping.set fr none,
        out := unmark_list st.generation (g.neighbors fr) st.out,
        out_size := st.out_size - (g.neighbors fr).length,
        ins := unmark_list st.generation (g.neighbors_incoming fr) st.ins,
        ins_size := st.ins_size - 1 } := by
  unfold Vf2State.pop_mapping
  rw [hd]
  simp only [if_true]
  rw [foldl_unmark_out, foldl_unmark_ins]

lemma pop_mapping_eq_undirected (st : Vf2State) (fr : Nat) (g : Graph)
    (hd : g.directed = false) :
    st.pop_mapping fr g =
      { st with
        generation := st.generation - 1,
        mapping := st.mapping.set fr none,
        out := unmark_list st.generation (g.neighbors fr) st.out,
        out_size := st.out_size - (g.neighbors fr).length } := by
  unfold Vf2State.pop_mapping
  rw [hd]
  simp only [Bool.false_eq_true, if_false]
  rw [foldl_unmark_out]

attribute [ext] Vf2State

lemma set_set_roundtrip (l : List (Option Nat)) (k : Nat) (v : Option Nat)
    (h : l.getD k none = none) : (l.set k v).set k none = l := by
  apply List.ext_getElem?
  intro n
  rw [List.getElem?_set, List.getElem?_set]
  by_cases hk : k = n
  · subst hk
    by_cases hl : k < l.length
    · have : l[k]? = some none := by
        rw [List.getElem?_eq_getElem hl]
        rw [List.getD_eq_getElem l none hl] at h
        rw [h]
      simp [hl, List.length_set, this]
    · simp [hl, List.length_set, List.getElem?_eq_none (Nat.le_of_not_lt hl)]
  · simp [hk]

/-! ### Claim C5: what one commit does -/

/-- C5: `push_mapping` increments the generation to `s = generation + 1`;
every outgoing neighbor whose out-frontier marker is `0` gets marker `s`
while already-marked neighbors keep their earlier marker (first touch);
`out_size` grows by the number of outgoing neighbors visited (with
multiplicity); for a directed graph the in-frontier markers are mirrored
over incoming neighbors but `ins_size` grows by exactly `1` per call (and
for an undirected graph the in-frontier bookkeeping is untouched). -/
theorem claim_C5 (st : Vf2State) (fr t : Nat) (g : Graph) :
    (st.push_mapping fr t g).generation = st.generation + 1 ∧
    (∀ i, (st.push_mapping fr t g).out.getD i 0 =
        if i ∈ g.neighbors fr ∧ st.out.getD i 0 = 0 ∧ i < st.out.length
        then st.generation + 1 else st.out.getD i 0) ∧
    (st.push_mapping fr t g).out_size = st.out_size + (g.neighbors fr).length ∧
    (g.directed = true →
      (∀ i, (st.push_mapping fr t g).ins.getD i 0 =
          if i ∈ g.neighbors_incoming fr ∧ st.ins.getD i 0 = 0 ∧ i < st.ins.length
          then st.generation + 1 else st.ins.getD i 0) ∧
      (st.push_mapping fr t g).ins_size = st.ins_size + 1) ∧
    (g.directed = false →
      (st.push_mapping fr t g).ins = st.ins ∧
      (st.push_mapping fr t g).ins_size = st.ins_size) := by
  cases hd : g.directed
  · rw [push_mapping_eq_undirected st fr t g hd]
    refine ⟨rfl, ?_, rfl, ?_, fun _ => ⟨rfl, rfl⟩⟩
    · intro i
      exact mark_list_getD _ (by omega) _ _ i
    · intro hcontra
      simp at hcontra
  · rw [push_mapping_eq_directed st fr t g hd]
    refine ⟨rfl, ?_, rfl, fun _ => ⟨?_, rfl⟩, ?_⟩
    · intro i
      exact mark_list_getD _ (by omega) _ _ i
    · intro i
      exact mark_list_getD _ (by omega) _ _ i
    · intro hcontra
      simp at hcontra

/-- C5 witness: one commit on a fresh state of the directed single-edge
graph, and one on the undirected one. -/
theorem claim_C5_witness :
    ((Vf2State.new gEdge).push_mapping 0 1 gEdge).generation =
      (Vf2State.new gEdge).generation + 1 ∧
    ((Vf2State.new gEdge).push_mapping 0 1 gEdge).ins_size =
      (Vf2State.new gEdge).ins_size + 1 ∧
    ((Vf2State.new gEdgeU).push_mapping 0 1 gEdgeU).ins = (Vf2State.new gEdgeU).ins :=
  ⟨(claim_C5 (Vf2State.new gEdge) 0 1 gEdge).1,
   ((claim_C5 (Vf2State.new gEdge) 0 1 gEdge).2.2.2.1 rfl).2,
   ((claim_C5 (Vf2State.new gEdgeU) 0 1 gEdgeU).2.2.2.2 rfl).1⟩

/-! ### Claim C4: pop after push restores the state -/

/-- Pop right after push restores the state (the core of claim C4). -/
lemma push_pop_restore (st : Vf2State) (fr t : Nat) (g : Graph)
    (h1 : st.mapping.getD fr none = none)
    (h2 : ∀ i ∈ g.neighbors fr, st.out.getD i 0 ≤ st.generation)
    (h3 : g.directed = true →
      ∀ i ∈ g.neighbors_incoming fr, st.ins.getD i 0 ≤ st.generation) :
    (st.push_mapping fr t g).pop_mapping fr g = st := by
  cases hd : g.directed
  · rw [push_mapping_eq_undirected st fr t g hd, pop_mapping_eq_undirected _ fr g hd]
    apply Vf2State.ext
    · rw [set_set_roundtrip st.mapping fr (some t) h1]
    · show (unmark_list (st.generation + 1) (g.neighbors fr)
          (mark_list (st.generation + 1) (g.neighbors fr) st.out)) = st.out
      exact unmark_mark_roundtrip (st.generation + 1) (by omega) _ _
        (fun i hi => by have := h2 i hi; omega)
    · rfl
    · show st.out_size + (g.neighbors fr).length - (g.neighbors fr).length = st.out_size
      omega
    · rfl
    · rfl
    · show st.generation + 1 - 1 = st.generation
      omega
    · rfl
  · rw [push_mapping_eq_directed st fr t g hd, pop_mapping_eq_directed _ fr g hd]
    apply Vf2State.ext
    · rw [set_set_roundtrip st.mapping fr (some t) h1]
    · show (unmark_list (st.generation + 1) (g.neighbors fr)
          (mark_list (st.generation + 1) (g.neighbors fr) st.out)) = st.out
      exact unmark_mark_roundtrip (st.generation + 1) (by omega) _ _
        (fun i hi => by have := h2 i hi; omega)
    · show (unmark_list (st.generation + 1) (g.neighbors_incoming fr)
          (mark_list (st.generation + 1) (g.neighbors_incoming fr) st.ins)) = st.ins
      exact unmark_mark_roundtrip (st.generation + 1) (by omega) _ _
        (fun i hi => by have := h3 hd i hi; omega)
    · show st.out_size + (g.neighbors fr).length - (g.neighbors fr).length = st.out_size
      omega
    · show st.ins_size + 1 - 1 = st.ins_size
      omega
    · rfl
    · show st.generation + 1 - 1 = st.generation
      omega
    · rfl

/-- C4: for an unmapped node `fr` in a state whose frontier markers (at the
neighbors of `fr`) do not exceed the current generation — which holds for
every state of a search branch — `pop_mapping fr` immediately after
`push_mapping fr t` restores every field of the state: `mapping`, `out`,
`ins`, `out_size`, `ins_size` and `generation`.  Balanced intervening
commit/undo pairs reduce to this identity by induction. -/
theorem claim_C4 (st : Vf2State) (fr t : Nat) (g : Graph)
    (h1 : st.mapping.getD fr none = none)
    (h2 : ∀ i ∈ g.neighbors fr, st.out.getD i 0 ≤ st.generation)
    (h3 : g.directed = true →
      ∀ i ∈ g.neighbors_incoming fr, st.ins.getD i 0 ≤ st.generation) :
    (st.push_mapping fr t g).pop_mapping fr g = st :=
  push_pop_restore st fr t g h1 h2 h3

/-- C4 witness: push-then-pop on fresh states of the directed and
undirected single-edge graphs. -/
theorem claim_C4_witness :
    ((Vf2State.new gEdge).push_mapping 0 1 gEdge).pop_mapping 0 gEdge =
        Vf2State.new gEdge ∧
    ((Vf2State.new gEdgeU).push_mapping 0 1 gEdgeU).pop_mapping 0 gEdgeU =
        Vf2State.new gEdgeU :=
  ⟨claim_C4 (Vf2State.new gEdge) 0 1 gEdge (by decide) (by decide) (fun _ => by decide),
   claim_C4 (Vf2State.new gEdgeU) 0 1 gEdgeU (by decide) (by decide)
     (fun h => absurd h (by decide))⟩

/-! ### Projection lemmas for push/pop -/

lemma push_mapping_mapping (st : Vf2State) (fr t : Nat) (g : Graph) :
    (st.push_mapping fr t g).mapping = st.mapping.set fr (some t) := by
  cases hd : g.directed
  · rw [push_mapping_eq_undirected st fr t g hd]
  · rw [push_mapping_eq_directed st fr t g hd]

lemma push_mapping_generation (st : Vf2State) (fr t : Nat) (g : Graph) :
    (st.push_mapping fr t g).generation = st.generation + 1 := by
  cases hd : g.directed
  · rw [push_mapping_eq_undirected st fr t g hd]
  · rw [push_mapping_eq_directed st fr t g hd]

lemma push_mapping_adjacency_matrix (st : Vf2State) (fr t : Nat) (g : Graph) :
    (st.push_mapping fr t g).adjacency_matrix = st.adjacency_matrix := by
  cases hd : g.directed
  · rw [push_mapping_eq_undirected st fr t g hd]
  · rw [push_mapping_eq_directed st fr t g hd]

lemma push_mapping_directed (st : Vf2State) (fr t : Nat) (g : Graph) :
    (st.push_mapping fr t g).directed = st.directed := by
  cases hd : g.directed
  · rw [push_mapping_eq_undirected st fr t g hd]
  · rw [push_mapping_eq_directed st fr t g hd]

lemma push_mapping_out (st : Vf2State) (fr t : Nat) (g : Graph) :
    (st.push_mapping fr t g).out =
      mark_list (st.generation + 1) (g.neighbors fr) st.out := by
  cases hd : g.directed
  · rw [push_mapping_eq_undirected st fr t g hd]
  · rw [push_mapping_eq_directed st fr t g hd]

lemma pop_mapping_mapping (st : Vf2State) (fr : Nat) (g : Graph) :
    (st.pop_mapping fr g).mapping = st.mapping.set fr none := by
  cases hd : g.directed
  · rw [pop_mapping_eq_undirected st fr g hd]
  · rw [pop_mapping_eq_directed st fr g hd]

lemma getD_replicate_none (n i : Nat) :
    (List.replicate n (none : Option Nat)).getD i none = none := by
  rw [List.getD_eq_getElem?_getD, List.getElem?_replicate]
  split <;> rfl

/-! ### Claim C7: candidate selection in strict priority order -/

lemma select_candidates_eq_spec (st0 st1 : Vf2State) :
    select_candidates st0 st1 = select_candidates_spec st0 st1 := by
  unfold select_candidates select_candidates_spec
  rcases hto : st1.next_out_index 0 with _ | m0 <;>
    rcases hfo : st0.next_out_index 0 with _ | n0 <;>
    rcases hti : st1.next_in_index 0 with _ | m1 <;>
    rcases hfi : st0.next_in_index 0 with _ | n1 <;>
    rcases htr : st1.next_rest_index 0 with _ | m2 <;>
    rcases hfr : st0.next_rest_index 0 with _ | n2 <;>
      simp [hto, hfo, hti, hfi, htr, hfr]

lemma try_match_no_selection (g0 g1 : Graph) (fuel : Nat) (st0 st1 : Vf2State)
    (hcomp : st0.is_complete = false) (hsel : select_candidates st0 st1 = none) :
    try_match g0 g1 (fuel + 1) st0 st1 = (none, st0, st1) := by
  simp only [try_match]
  rw [if_neg (by rw [hcomp]; simp), hsel]

/-- C7: the straight-line candidate selection of the driver equals the
declarative priority-order selection (out list, then in list, then rest
list, first list yielding a candidate on both the `g1` and the `g0` side
wins), and when no list yields candidates on both sides the driver signals
no decision, returning the states untouched. -/
theorem claim_C7 :
    (∀ st0 st1 : Vf2State, select_candidates st0 st1 = select_candidates_spec st0 st1) ∧
    ∀ (g0 g1 : Graph) (fuel : Nat) (st0 st1 : Vf2State),
      st0.is_complete = false → select_candidates st0 st1 = none →
        try_match g0 g1 (fuel + 1) st0 st1 = (none, st0, st1) :=
  ⟨select_candidates_eq_spec,
   fun g0 g1 fuel st0 st1 hcomp hsel =>
     try_match_no_selection g0 g1 fuel st0 st1 hcomp hsel⟩

/-- C7 witness: the refinement evaluated on concrete states, and the
no-decision exit on a state pair whose scans all come up empty. -/
theorem claim_C7_witness :
    select_candidates stC7a stC7b = select_candidates_spec stC7a stC7b ∧
    try_match gOne gOne 3 stC7a stC7b = (none, stC7a, stC7b) :=
  ⟨claim_C7.1 stC7a stC7b,
   claim_C7.2 gOne gOne 2 stC7a stC7b (by decide) (by decide)⟩

/-! ### Claim C8: injectivity and mutual inverse of the two mappings -/

lemma mutual_inverse_new (g0 g1 : Graph) :
    mutual_inverse (Vf2State.new g0) (Vf2State.new g1) := by
  constructor
  · intro i j hij
    rw [show (Vf2State.new g0).mapping = List.replicate g0.node_count none from rfl,
      getD_replicate_none] at hij
    cases hij
  · intro i j hij
    rw [show (Vf2State.new g1).mapping = List.replicate g1.node_count none from rfl,
      getD_replicate_none] at hij
    cases hij

lemma mutual_inverse_push (st0 st1 : Vf2State) (nx mx : Nat) (g0 g1 : Graph)
    (hinv : mutual_inverse st0 st1)
    (h0 : st0.mapping.getD nx none = none) (h1 : st1.mapping.getD mx none = none)
    (hn : nx < st0.mapping.length) (hm : mx < st1.mapping.length) :
    mutual_inverse (st0.push_mapping nx mx g0) (st1.push_mapping mx nx g1) := by
  constructor
  · intro i j hij
    rw [push_mapping_mapping, list_getD_set] at hij
    rw [push_mapping_mapping, list_getD_set]
    by_cases hni : nx = i ∧ nx < st0.mapping.length
    · rw [if_pos hni] at hij
      have hj : j = mx := by
        have := Option.some.inj hij
        omega
      subst hj
      rw [if_pos ⟨rfl, hm⟩]
      rw [Option.some.injEq]
      omega
    · rw [if_neg hni] at hij
      have hback := hinv.1 i j hij
      have hjm : ¬ (mx = j ∧ mx < st1.mapping.length) := by
        rintro ⟨rfl, _⟩
        rw [hback] at h1
        cases h1
      rw [if_neg hjm]
      exact hback
  · intro i j hij
    rw [push_mapping_mapping, list_getD_set] at hij
    rw [push_mapping_mapping, list_getD_set]
    by_cases hmi : mx = i ∧ mx < st1.mapping.length
    · rw [if_pos hmi] at hij
      have hj : j = nx := by
        have := Option.some.inj hij
        omega
      subst hj
      rw [if_pos ⟨rfl, hn⟩]
      rw [Option.some.injEq]
      omega
    · rw [if_neg hmi] at hij
      have hback := hinv.2 i j hij
      have hjn : ¬ (nx = j ∧ nx < st0.mapping.length) := by
        rintro ⟨rfl, _⟩
        rw [hback] at h0
        cases h0
      rw [if_neg hjn]
      exact hback

lemma mutual_inverse_pop (st0 st1 : Vf2State) (nx mx : Nat) (g0 g1 : Graph)
    (hinv : mutual_inverse st0 st1)
    (h0 : st0.mapping.getD nx none = some mx)
    (h1 : st1.mapping.getD mx none = some nx) :
    mutual_inverse (st0.pop_mapping nx g0) (st1.pop_mapping mx g1) := by
  constructor
  · intro i j hij
    rw [pop_mapping_mapping, list_getD_set] at hij
    rw [pop_mapping_mapping, list_getD_set]
    by_cases hni : nx = i ∧ nx < st0.mapping.length
    · rw [if_pos hni] at hij
      cases hij
    · rw [if_neg hni] at hij
      have hback := hinv.1 i j hij
      have hjm : ¬ (mx = j ∧ mx < st1.mapping.length) := by
        rintro ⟨rfl, _⟩
        have hi : i = nx := by
          rw [hback] at h1
          exact Option.some.inj h1
        have hnx : nx < st0.mapping.length := by
          by_contra hcon
          have : st0.mapping.getD nx none = none := by
            rw [List.getD_eq_getElem?_getD,
              List.getElem?_eq_none (Nat.le_of_not_lt hcon)]
            rfl
          rw [this] at h0
          cases h0
        exact hni ⟨hi.symm, hnx⟩
      rw [if_neg hjm]
      exact hback
  · intro i j hij
    rw [pop_mapping_mapping, list_getD_set] at hij
    rw [pop_mapping_mapping, list_getD_set]
    by_cases hmi : mx = i ∧ mx < st1.mapping.length
    · rw [if_pos hmi] at hij
      cases hij
    · rw [if_neg hmi] at hij
      have hback := hinv.2 i j hij
      have hjn : ¬ (nx = j ∧ nx < st0.mapping.length) := by
        rintro ⟨rfl, _⟩
        have hi : i = mx := by
          rw [hback] at h0
          exact Option.some.inj h0
        have hmx : mx < st1.mapping.length := by
          by_contra hcon
          have : st1.mapping.getD mx none = none := by
            rw [List.getD_eq_getElem?_getD,
              List.getElem?_eq_none (Nat.le_of_not_lt hcon)]
            rfl
          rw [this] at h1
          cases h1
        exact hmi ⟨hi.symm, hmx⟩
      rw [if_neg hjn]
      exact hback

lemma mutual_inverse_inj (st0 st1 : Vf2State) (hinv : mutual_inverse st0 st1) :
    (∀ i1 i2 j, st0.mapping.getD i1 none = some j →
      st0.mapping.getD i2 none = some j → i1 = i2) ∧
    (∀ i1 i2 j, st1.mapping.getD i1 none = some j →
      st1.mapping.getD i2 none = some j → i1 = i2) := by
  constructor
  · intro i1 i2 j h1 h2
    have e1 := hinv.1 i1 j h1
    have e2 := hinv.1 i2 j h2
    rw [e1] at e2
    exact (Option.some.inj e2).symm ▸ rfl
  · intro i1 i2 j h1 h2
    have e1 := hinv.2 i1 j h1
    have e2 := hinv.2 i2 j h2
    rw [e1] at e2
    exact (Option.some.inj e2).symm ▸ rfl

/-- C8: the two mappings of a search branch are mutual inverses on
non-sentinel entries (hence each is injective) in every state reachable by
the driver's commit/undo discipline: the invariant holds for the fresh
states, is preserved by the driver's commit step (which pushes an unmapped,
in-range pair symmetrically into both states), and is preserved by the
undo step (which pops a currently-matched pair from both states). -/
theorem claim_C8 :
    (∀ g0 g1 : Graph, mutual_inverse (Vf2State.new g0) (Vf2State.new g1)) ∧
    (∀ (st0 st1 : Vf2State) (nx mx : Nat) (g0 g1 : Graph),
      mutual_inverse st0 st1 →
      st0.mapping.getD nx none = none → st1.mapping.getD mx none = none →
      nx < st0.mapping.length → mx < st1.mapping.length →
      mutual_inverse (st0.push_mapping nx mx g0) (st1.push_mapping mx nx g1)) ∧
    (∀ (st0 st1 : Vf2State) (nx mx : Nat) (g0 g1 : Graph),
      mutual_inverse st0 st1 →
      st0.mapping.getD nx none = some mx → st1.mapping.getD mx none = some nx →
      mutual_inverse (st0.pop_mapping nx g0) (st1.pop_mapping mx g1)) ∧
    (∀ st0 st1 : Vf2State, mutual_inverse st0 st1 →
      (∀ i1 i2 j, st0.mapping.getD i1 none = some j →
        st0.mapping.getD i2 none = some j → i1 = i2) ∧
      (∀ i1 i2 j, st1.mapping.getD i1 none = some j →
        st1.mapping.getD i2 none = some j → i1 = i2)) :=
  ⟨mutual_inverse_new,
   fun st0 st1 nx mx g0 g1 hinv h0 h1 hn hm =>
     mutual_inverse_push st0 st1 nx mx g0 g1 hinv h0 h1 hn hm,
   fun st0 st1 nx mx g0 g1 hinv h0 h1 =>
     mutual_inverse_pop st0 st1 nx mx g0 g1 hinv h0 h1,
   fun st0 st1 hinv => mutual_inverse_inj st0 st1 hinv⟩

/-- C8 witness: the invariant steps applied on fresh states of the
single-edge graph and a concretely matched pair. -/
theorem claim_C8_witness :
    mutual_inverse (Vf2State.new gEdge) (Vf2State.new gEdge) ∧
    mutual_inverse ((Vf2State.new gEdge).push_mapping 0 1 gEdge)
      ((Vf2State.new gEdge).push_mapping 1 0 gEdge) :=
  ⟨claim_C8.1 gEdge gEdge,
   claim_C8.2.1 (Vf2State.new gEdge) (Vf2State.new gEdge) 0 1 gEdge gEdge
     (claim_C8.1 gEdge gEdge) (by decide) (by decide) (by decide) (by decide)⟩

/-! ### Claim C1: reflexivity of the check -/

lemma push_mapping_ins_length (st : Vf2State) (fr t : Nat) (g : Graph) :
    (st.push_mapping fr t g).ins.length = st.ins.length := by
  cases hd : g.directed
  · rw [push_mapping_eq_undirected st fr t g hd]
  · rw [push_mapping_eq_directed st fr t g hd]
    exact mark_list_length _ _ _

lemma countP_isSome_set (l : List (Option Nat)) :
    ∀ (k v : Nat), k < l.length → l.getD k none = none →
      List.countP (fun o => o.isSome) (l.set k (some v)) =
        List.countP (fun o => o.isSome) l + 1 := by
  induction l with
  | nil => intro k v hk _; simp at hk
  | cons x xs ih =>
    intro k v hk h0
    cases k with
    | zero =>
      have hx : x = none := by simpa using h0
      subst hx
      simp [List.countP_cons]
    | succ k =>
      have h0' : xs.getD k none = none := by simpa using h0
      have hk' : k < xs.length := by simpa using hk
      simp only [List.set_cons_succ, List.countP_cons, ih k v hk' h0']
      omega

lemma mem_neighbors_adj (g : Graph) (c nn : Nat) (h : nn ∈ g.neighbors c) :
    g.adj_matrix c nn = true := by
  unfold Graph.neighbors at h
  unfold Graph.adj_matrix
  cases hd : g.directed
  · rw [hd] at h
    simp only [Bool.false_eq_true, if_false] at h ⊢
    obtain ⟨e, he, hcond⟩ := List.mem_filterMap.mp h
    by_cases h1 : e.1 = c
    · rw [if_pos h1, Option.some.injEq] at hcond
      have he2 : e = (c, nn) := Prod.ext h1 hcond
      apply Bool.or_eq_true_iff.mpr
      left
      exact List.elem_eq_true_of_mem (he2 ▸ he)
    · rw [if_neg h1] at hcond
      by_cases h2 : e.2 = c
      · rw [if_pos h2, Option.some.injEq] at hcond
        have he2 : e = (nn, c) := Prod.ext hcond h2
        apply Bool.or_eq_true_iff.mpr
        right
        exact List.elem_eq_true_of_mem (he2 ▸ he)
      · rw [if_neg h2] at hcond
        cases hcond
  · rw [hd] at h
    simp only [if_true] at h ⊢
    obtain ⟨e, he, hcond⟩ := List.mem_filterMap.mp h
    by_cases h1 : e.1 = c
    · rw [if_pos h1, Option.some.injEq] at hcond
      have he2 : e = (c, nn) := Prod.ext h1 hcond
      exact List.elem_eq_true_of_mem (he2 ▸ he)
    · rw [if_neg h1] at hcond
      cases hcond

lemma mem_incoming_adj (g : Graph) (c nn : Nat) (h : nn ∈ g.neighbors_incoming c) :
    g.adj_matrix nn c = true := by
  unfold Graph.neighbors_incoming at h
  unfold Graph.adj_matrix
  obtain ⟨e, he, hcond⟩ := List.mem_filterMap.mp h
  by_cases h2 : e.2 = c
  · rw [if_pos h2, Option.some.injEq] at hcond
    have he2 : e = (nn, c) := Prod.ext hcond h2
    cases hd : g.directed
    · simp only [Bool.false_eq_true, if_false]
      apply Bool.or_eq_true_iff.mpr
      left
      exact List.elem_eq_true_of_mem (he2 ▸ he)
    · simp only [if_true]
      exact List.elem_eq_true_of_mem (he2 ▸ he)
  · rw [if_neg h2] at hcond
    cases hcond

lemma exists_unmapped_of_incomplete (g : Graph) (st : Vf2State)
    (hinv : DiagInv g st) (hc : st.is_complete = false) :
    ∃ i, QRest st i := by
  have hle : List.countP (fun o => o.isSome) st.mapping ≤ st.mapping.length :=
    List.countP_le_length _
  have hgen := hinv.2.2.2.2.1
  have hne : ¬ st.generation = st.mapping.length := by
    simpa [Vf2State.is_complete] using hc
  have hlt : List.countP (fun o => o.isSome) st.mapping < st.mapping.length := by omega
  have hnall : ¬ ∀ a ∈ st.mapping, (fun o : Option Nat => o.isSome) a = true := by
    intro hall
    have := List.countP_eq_length.mpr hall
    omega
  push_neg at hnall
  obtain ⟨a, ha, hna⟩ := hnall
  obtain ⟨i, hi, hval⟩ := List.mem_iff_getElem.mp ha
  refine ⟨i, hi, ?_⟩
  rw [List.getD_eq_getElem _ none hi, hval]
  cases a
  · rfl
  · simp at hna

lemma select_candidates_diag (st : Vf2State)
    (hout : st.out.length = st.mapping.length)
    (hins : st.ins.length ≤ st.mapping.length) :
    (select_candidates st st = none ∧ st.next_rest_index 0 = none) ∨
    ∃ c l, select_candidates st st = some (c, c, l) ∧
      st.mapping.getD c none = none ∧ c < st.mapping.length := by
  unfold select_candidates
  rcases hto : st.next_out_index 0 with _ | c
  · rcases hti : st.next_in_index 0 with _ | c
    · rcases htr : st.next_rest_index 0 with _ | c
      · left
        exact ⟨by simp [hto, hti, htr], rfl⟩
      · right
        refine ⟨c, OpenList.Other, by simp [hto, hti, htr], ?_, ?_⟩
        · have := (next_rest_index_some_unmapped st 0 c htr).1
          simpa using this
        · have := (next_rest_index_some_unmapped st 0 c htr).2
          simpa using this
    · right
      refine ⟨c, OpenList.In, by simp [hto, hti], ?_, ?_⟩
      · have := (next_in_index_some_unmapped st 0 c hti).1
        simpa using this
      · have := (next_in_index_some_unmapped st 0 c hti).2
        omega
  · right
    refine ⟨c, OpenList.Out, by simp [hto], ?_, ?_⟩
    · have := (next_out_index_some_unmapped st 0 c hto).1
      simpa using this
    · have := (next_out_index_some_unmapped st 0 c hto).2
      omega

lemma DiagInv_push (g : Graph) (st : Vf2State) (c : Nat)
    (hinv : DiagInv g st) (hc : st.mapping.getD c none = none)
    (hlt : c < st.mapping.length) :
    DiagInv g (st.push_mapping c c g) := by
  obtain ⟨hlen, hout, hins, hdiag, hcount, hmat⟩ := hinv
  refine ⟨?_, ?_, ?_, ?_, ?_, ?_⟩
  · rw [push_mapping_mapping, List.length_set, hlen]
  · rw [push_mapping_mapping, push_mapping_out, mark_list_length, List.length_set]
    exact hout
  · rw [push_mapping_mapping, push_mapping_ins_length, List.length_set]
    exact hins
  · intro i j hij
    rw [push_mapping_mapping, list_getD_set] at hij
    by_cases hci : c = i ∧ c < st.mapping.length
    · rw [if_pos hci] at hij
      have hcj := Option.some.inj hij
      omega
    · rw [if_neg hci] at hij
      exact hdiag i j hij
  · rw [push_mapping_mapping, push_mapping_generation,
      countP_isSome_set st.mapping c c hlt hc, hcount]
  · rw [push_mapping_adjacency_matrix]
    exact hmat

lemma feasible_diag (g : Graph) (st : Vf2State) (c : Nat) (hinv : DiagInv g st) :
    feasible g g st st c c = true := by
  obtain ⟨hlen, hout, hins, hdiag, hcount, hmat⟩ := hinv
  unfold feasible
  have hsucc : succ_adj_ok g g st st c c = true := by
    unfold succ_adj_ok
    rw [List.all_eq_true]
    intro nn hnn
    show (match st.mapping.getD nn none with
          | none => true
          | some m_neigh => g.is_adjacent st.adjacency_matrix c m_neigh) = true
    rcases hm : st.mapping.getD nn none with _ | w
    · rfl
    · have hw : w = nn := hdiag nn w hm
      show st.adjacency_matrix c w = true
      rw [hw, hmat]
      exact mem_neighbors_adj g c nn hnn
  have hpred : g.directed = true → pred_adj_ok g g st st c c = true := by
    intro _
    unfold pred_adj_ok
    rw [List.all_eq_true]
    intro nn hnn
    show (match st.mapping.getD nn none with
          | none => true
          | some m_neigh => g.is_adjacent st.adjacency_matrix m_neigh c) = true
    rcases hm : st.mapping.getD nn none with _ | w
    · rfl
    · have hw : w = nn := hdiag nn w hm
      show st.adjacency_matrix w c = true
      rw [hw, hmat]
      exact mem_incoming_adj g c nn hnn
  rw [hsucc]
  cases hd : g.directed
  · simp
  · simp [hpred hd]

lemma try_match_diag (g : Graph) :
    ∀ (fuel : Nat) (st : Vf2State), DiagInv g st →
      g.node_count - st.generation < fuel →
      (try_match g g fuel st st).1 = some true := by
  intro fuel
  induction fuel with
  | zero => intro st _ h; omega
  | succ fuel ih =>
    intro st hinv hfuel
    by_cases hcomp : st.is_complete
    · simp [try_match, hcomp]
    · have hcomp' : st.is_complete = false := Bool.eq_false_iff.mpr hcomp
      rcases select_candidates_diag st hinv.2.1 hinv.2.2.1 with ⟨hsel, hrest⟩ |
        ⟨c, l, hsel, hc, hclt⟩
      · exfalso
        obtain ⟨i, hQ⟩ := exists_unmapped_of_incomplete g st hinv hcomp'
        exact (next_rest_index_eq_none_iff st 0).mp hrest i (by omega) hQ
      · simp only [try_match]
        rw [if_neg (by simp [hcomp']), hsel]
        simp only [candidates_loop, size_check_true, if_true]
        rw [if_pos (feasible_diag g st c hinv)]
        have hpush := DiagInv_push g st c hinv hc hclt
        have hgenle : st.generation ≤ st.mapping.length := by
          have h1 := List.countP_le_length (fun o : Option Nat => o.isSome)
            (l := st.mapping)
          have h2 := hinv.2.2.2.2.1
          omega
        have hgenne : ¬ st.generation = st.mapping.length := by
          simpa [Vf2State.is_complete] using hcomp'
      
        have harith : g.node_count - (st.push_mapping c c g).generation < fuel := by
          rw [push_mapping_generation]
          have := hinv.1
          omega
        have hres := ih (st.push_mapping c c g) hpush harith
        show (match try_match g g fuel (st.push_mapping c c g) (st.push_mapping c c g) with
              | (some r, s0, s1) => (some r, s0, s1)
              | (none, s0, s1) =>
                match next_from_index ((s0.pop_mapping c g)) l (c + 1) with
                | none => ((none : Option Bool), s0.pop_mapping c g, s1.pop_mapping c g)
                | some nx' => candidates_loop g g
                    (fun s0 s1 => try_match g g fuel s0 s1) l c
                    (st.mapping.length + st.out.length) nx'
                    (s0.pop_mapping c g) (s1.pop_mapping c g)).1 = some true
        rcases hr : try_match g g fuel (st.push_mapping c c g) (st.push_mapping c c g) with
          ⟨ro, s0, s1⟩
        rw [hr] at hres
        simp only at hres
        subst hres
        rfl

/-- C1: the isomorphism check is reflexive — `is_isomorphic g g` is true
for every graph `g`; the search always finds the identity bijection (its
first candidate pair at every depth is the diagonal one). -/
theorem claim_C1 (g : Graph) : is_isomorphic g g = true := by
  unfold is_isomorphic is_isomorphic_with
  rw [if_neg (by simp)]
  have hdiag : DiagInv g (Vf2State.new g) := by
    refine ⟨by simp [Vf2State.new], by simp [Vf2State.new], ?_, ?_, ?_, rfl⟩
    · cases hd : g.directed <;> simp [Vf2State.new, hd]
    · intro i j hij
      rw [show (Vf2State.new g).mapping = List.replicate g.node_count none from rfl,
        getD_replicate_none] at hij
      cases hij
    · show List.countP (fun o => o.isSome) (List.replicate g.node_count none) = 0
      rw [List.countP_replicate]
      simp
  have hroot := try_match_diag g (g.node_count + 1) (Vf2State.new g) hdiag
    (by show g.node_count - 0 < g.node_count + 1; omega)
  show ((try_match g g (g.node_count + 1) (Vf2State.new g) (Vf2State.new g)).1).getD false
      = true
  rcases hr : try_match g g (g.node_count + 1) (Vf2State.new g) (Vf2State.new g) with
    ⟨ro, s0, s1⟩
  rw [hr] at hroot
  simp only at hroot
  subst hroot
  rfl

/-! ### Claim C2: symmetry of the check.  Graph-side lemmas -/

lemma adj_mem_neighbors (g : Graph) (a b : Nat) (h : g.adj_matrix a b = true) :
    b ∈ g.neighbors a := by
  unfold Graph.adj_matrix at h
  unfold Graph.neighbors
  cases hd : g.directed
  · rw [hd] at h
    simp only [Bool.false_eq_true, if_false] at h ⊢
    rcases Bool.or_eq_true_iff.mp h with h1 | h1
    · have hmem := List.mem_of_elem_eq_true h1
      exact List.mem_filterMap.mpr ⟨(a, b), hmem, by simp⟩
    · have hmem := List.mem_of_elem_eq_true h1
      refine List.mem_filterMap.mpr ⟨(b, a), hmem, ?_⟩
      by_cases hba : b = a
      · subst hba
        simp
      · simp [hba]
  · rw [hd] at h
    simp only [if_true] at h ⊢
    have hmem := List.mem_of_elem_eq_true h
    exact List.mem_filterMap.mpr ⟨(a, b), hmem, by simp⟩

lemma adj_mem_incoming (g : Graph) (a b : Nat) (hd : g.directed = true)
    (h : g.adj_matrix a b = true) :
    a ∈ g.neighbors_incoming b := by
  unfold Graph.adj_matrix at h
  rw [hd] at h
  simp only [if_true] at h
  have hmem := List.mem_of_elem_eq_true h
  exact List.mem_filterMap.mpr ⟨(a, b), hmem, by simp⟩

lemma adj_matrix_symm (g : Graph) (a b : Nat) (hd : g.directed = false) :
    g.adj_matrix a b = g.adj_matrix b a := by
  unfold Graph.adj_matrix
  rw [hd]
  simp only [Bool.false_eq_true, if_false]
  rw [Bool.or_comm]

lemma getD_some_lt (l : List (Option Nat)) (i j : Nat)
    (h : l.getD i none = some j) : i < l.length := by
  by_contra hcon
  rw [List.getD_eq_getElem?_getD, List.getElem?_eq_none (Nat.le_of_not_lt hcon)] at h
  cases h

lemma iso_pair_symm (g0 g1 : Graph) (φ ψ : Nat → Nat)
    (hdir : g0.directed = g1.directed)
    (h : iso_pair g0 g1 φ ψ) : iso_pair g1 g0 ψ φ := by
  obtain ⟨hr1, hr2, hi1, hi2, hmatrix, hdeg, hindeg⟩ := h
  refine ⟨hr2, hr1, hi2, hi1, ?_, ?_, ?_⟩
  · intro x y hx hy hxy
    have hpx := hr2 x hx
    have hpy := hr2 y hy
    have hne : ψ x ≠ ψ y := by
      intro he
      apply hxy
      rw [← hi2 x hx, ← hi2 y hy, he]
    have := hmatrix (ψ x) (ψ y) hpx hpy hne
    rw [hi2 x hx, hi2 y hy] at this
    exact this.symm
  · intro w hw
    have := hdeg (ψ w) (hr2 w hw)
    rw [hi2 w hw] at this
    exact this.symm
  · intro hd1 w hw
    have := hindeg (by rw [hdir]; exact hd1) (ψ w) (hr2 w hw)
    rw [hi2 w hw] at this
    exact this.symm

lemma getD_replicate_self (n i : Nat) (a : Nat) :
    (List.replicate n a).getD i a = a := by
  rw [List.getD_eq_getElem?_getD, List.getElem?_replicate]
  split <;> rfl

lemma SearchInv_new (g0 g1 : Graph) :
    SearchInv g0 g1 (Vf2State.new g0) (Vf2State.new g1) := by
  refine ⟨by simp [Vf2State.new], by simp [Vf2State.new],
    by simp [Vf2State.new], by simp [Vf2State.new],
    by simp [Vf2State.new], by simp [Vf2State.new],
    rfl, rfl, rfl, rfl, rfl, ?_, ?_,
    mutual_inverse_new g0 g1, ?_, ?_, ?_, ?_, ?_, ?_, ?_, ?_, ?_, ?_⟩
  · show List.countP (fun o => o.isSome) (List.replicate g0.node_count none) = 0
    rw [List.countP_replicate]
    simp
  · show List.countP (fun o => o.isSome) (List.replicate g1.node_count none) = 0
    rw [List.countP_replicate]
    simp
  · intro i
    show (List.replicate g0.node_count 0).getD i 0 ≤ 0
    rw [getD_replicate_self]
  · intro i
    show (List.replicate g1.node_count 0).getD i 0 ≤ 0
    rw [getD_replicate_self]
  · intro i
    show (List.replicate (if g0.directed then g0.node_count else 0) 0).getD i 0 ≤ 0
    rw [getD_replicate_self]
  · intro i
    show (List.replicate (if g1.directed then g1.node_count else 0) 0).getD i 0 ≤ 0
    rw [getD_replicate_self]
  · intro i _
    constructor
    · intro hlt
      rw [show (Vf2State.new g0).out = List.replicate g0.node_count 0 from rfl,
        getD_replicate_self] at hlt
      omega
    · rintro ⟨u, j, hu, _⟩
      rw [show (Vf2State.new g0).mapping = List.replicate g0.node_count none from rfl,
        getD_replicate_none] at hu
      cases hu
  · intro i _
    constructor
    · intro hlt
      rw [show (Vf2State.new g1).out = List.replicate g1.node_count 0 from rfl,
        getD_replicate_self] at hlt
      omega
    · rintro ⟨u, j, hu, _⟩
      rw [show (Vf2State.new g1).mapping = List.replicate g1.node_count none from rfl,
        getD_replicate_none] at hu
      cases hu
  · intro _ i _
    constructor
    · intro hlt
      rw [show (Vf2State.new g0).ins =
          List.replicate (if g0.directed then g0.node_count else 0) 0 from rfl,
        getD_replicate_self] at hlt
      omega
    · rintro ⟨u, j, hu, _⟩
      rw [show (Vf2State.new g0).mapping = List.replicate g0.node_count none from rfl,
        getD_replicate_none] at hu
      cases hu
  · intro _ i _
    constructor
    · intro hlt
      rw [show (Vf2State.new g1).ins =
          List.replicate (if g1.directed then g1.node_count else 0) 0 from rfl,
        getD_replicate_self] at hlt
      omega
    · rintro ⟨u, j, hu, _⟩
      rw [show (Vf2State.new g1).mapping = List.replicate g1.node_count none from rfl,
        getD_replicate_none] at hu
      cases hu
  · intro a b a' b' _ ha
    rw [show (Vf2State.new g0).mapping = List.replicate g0.node_count none from rfl,
      getD_replicate_none] at ha
    cases ha
  · intro a a' ha
    rw [show (Vf2State.new g0).mapping = List.replicate g0.node_count none from rfl,
      getD_replicate_none] at ha
    cases ha

lemma all_entries_some (st : Vf2State)
    (hcount : List.countP (fun o => o.isSome) st.mapping = st.mapping.length) :
    ∀ v, v < st.mapping.length → ∃ j, st.mapping.getD v none = some j := by
  intro v hv
  have hall := List.countP_eq_length.mp hcount
  have hmem : st.mapping[v] ∈ st.mapping := List.getElem_mem hv
  have hsome := hall _ hmem
  rcases hval : st.mapping[v] with _ | j
  · rw [hval] at hsome
    cases hsome
  · refine ⟨j, ?_⟩
    rw [List.getD_eq_getElem _ none hv, hval]

lemma complete_iso (g0 g1 : Graph) (st0 st1 : Vf2State)
    (hW : SearchInv g0 g1 st0 st1)
    (hnodes : g0.node_count = g1.node_count)
    (hcomp : st0.is_complete = true) :
    ∃ φ ψ, iso_pair g0 g1 φ ψ := by
  have hgen0 : st0.generation = st0.mapping.length := by
    simpa [Vf2State.is_complete] using hcomp
  have hsome0 := all_entries_some st0 (by rw [hW.count0, hgen0])
  have hsome1 := all_entries_some st1 (by
    rw [hW.count1, ← hW.gen_sync, hgen0, hW.len_m0, hnodes, hW.len_m1])
  refine ⟨fun v => (st0.mapping.getD v none).getD 0,
          fun w => (st1.mapping.getD w none).getD 0, ?_, ?_, ?_, ?_, ?_, ?_, ?_⟩
  · intro v hv
    obtain ⟨j, hj⟩ := hsome0 v (by rw [hW.len_m0]; exact hv)
    show (st0.mapping.getD v none).getD 0 < g1.node_count
    rw [hj]
    have := hW.inv.1 v j hj
    have hlt := getD_some_lt st1.mapping j v this
    rw [hW.len_m1] at hlt
    exact hlt
  · intro w hw
    obtain ⟨j, hj⟩ := hsome1 w (by rw [hW.len_m1]; exact hw)
    show (st1.mapping.getD w none).getD 0 < g0.node_count
    rw [hj]
    have := hW.inv.2 w j hj
    have hlt := getD_some_lt st0.mapping j w this
    rw [hW.len_m0] at hlt
    exact hlt
  · intro v hv
    obtain ⟨j, hj⟩ := hsome0 v (by rw [hW.len_m0]; exact hv)
    show (st1.mapping.getD ((st0.mapping.getD v none).getD 0) none).getD 0 = v
    rw [hj]
    show (st1.mapping.getD j none).getD 0 = v
    rw [hW.inv.1 v j hj]
    rfl
  · intro w hw
    obtain ⟨j, hj⟩ := hsome1 w (by rw [hW.len_m1]; exact hw)
    show (st0.mapping.getD ((st1.mapping.getD w none).getD 0) none).getD 0 = w
    rw [hj]
    show (st0.mapping.getD j none).getD 0 = w
    rw [hW.inv.2 w j hj]
    rfl
  · intro a b ha hb hab
    obtain ⟨a', ha'⟩ := hsome0 a (by rw [hW.len_m0]; exact ha)
    obtain ⟨b', hb'⟩ := hsome0 b (by rw [hW.len_m0]; exact hb)
    show g0.adj_matrix a b =
      g1.adj_matrix ((st0.mapping.getD a none).getD 0) ((st0.mapping.getD b none).getD 0)
    rw [ha', hb']
    exact hW.piso_mat a b a' b' hab ha' hb'
  · intro v hv
    obtain ⟨j, hj⟩ := hsome0 v (by rw [hW.len_m0]; exact hv)
    show (g0.neighbors v).length =
      (g1.neighbors ((st0.mapping.getD v none).getD 0)).length
    rw [hj]
    exact (hW.piso_deg v j hj).1
  · intro hd v hv
    obtain ⟨j, hj⟩ := hsome0 v (by rw [hW.len_m0]; exact hv)
    show (g0.neighbors_incoming v).length =
      (g1.neighbors_incoming ((st0.mapping.getD v none).getD 0)).length
    rw [hj]
    exact (hW.piso_deg v j hj).2 hd

lemma agrees_unmapped_psi (g0 g1 : Graph) (st0 st1 : Vf2State) (φ ψ : Nat → Nat)
    (hW : SearchInv g0 g1 st0 st1) (hiso : iso_pair g0 g1 φ ψ)
    (hagree : mapping_agrees φ st0) (mx : Nat)
    (hmx : st1.mapping.getD mx none = none) (hmxlt : mx < g1.node_count) :
    st0.mapping.getD (ψ mx) none = none := by
  rcases h : st0.mapping.getD (ψ mx) none with _ | j
  · rfl
  · exfalso
    have hj : j = φ (ψ mx) := hagree _ _ h
    rw [hiso.2.2.2.1 mx hmxlt] at hj
    have h2 := hW.inv.1 (ψ mx) j h
    rw [hj, hmx] at h2
    cases h2

lemma transfer_list (g0 g1 : Graph) (st0 st1 : Vf2State) (φ ψ : Nat → Nat)
    (hW : SearchInv g0 g1 st0 st1)
    (hdir : g0.directed = g1.directed)
    (hiso : iso_pair g0 g1 φ ψ) (hagree : mapping_agrees φ st0)
    (list : OpenList) (mx : Nat) (hQ : Qlist st1 list mx) :
    Qlist st0 list (ψ mx) := by
  obtain ⟨hr1, hr2, hi1, hi2, hmat, hdeg, hindeg⟩ := hiso
  cases list
  · -- Out
    obtain ⟨hlt, hmark, hunm⟩ := hQ
    rw [hW.len_o1] at hlt
    have hψlt : ψ mx < g0.node_count := hr2 mx hlt
    have hunm0 : st0.mapping.getD (ψ mx) none = none :=
      agrees_unmapped_psi g0 g1 st0 st1 φ ψ hW
        ⟨hr1, hr2, hi1, hi2, hmat, hdeg, hindeg⟩ hagree mx hunm hlt
    refine ⟨by rw [hW.len_o0]; exact hψlt, ?_, hunm0⟩
    apply (hW.sem_out0 (ψ mx) hψlt).mpr
    obtain ⟨u1, j1, hu1, hmem⟩ := (hW.sem_out1 mx hlt).mp hmark
    have hj1 := hW.inv.2 u1 j1 hu1
    have hj1lt : j1 < g0.node_count := by
      have := getD_some_lt st0.mapping j1 u1 hj1
      rwa [hW.len_m0] at this
    have hu1φ : u1 = φ j1 := hagree j1 u1 hj1
    have hedge1 : g1.adj_matrix u1 mx = true := by
      rw [← hW.mat1]
      rw [hW.mat1]
      exact mem_neighbors_adj g1 u1 mx hmem
    have hne : j1 ≠ ψ mx := by
      intro he
      rw [he, hunm0] at hj1
      cases hj1
    have hiff := hmat j1 (ψ mx) hj1lt hψlt hne
    rw [← hu1φ, hi2 mx hlt] at hiff
    have hedge0 : g0.adj_matrix j1 (ψ mx) = true := by rw [hiff]; exact hedge1
    exact ⟨j1, u1, hj1, adj_mem_neighbors g0 j1 (ψ mx) hedge0⟩
  · -- In
    obtain ⟨⟨hlt, hmark, hunm⟩, hdir1⟩ := hQ
    have hg1d : g1.directed = true := by rw [← hW.dir1]; exact hdir1
    have hg0d : g0.directed = true := by rw [hdir]; exact hg1d
    rw [hW.len_i1, hg1d] at hlt
    simp only [if_true] at hlt
    have hψlt : ψ mx < g0.node_count := hr2 mx hlt
    have hunm0 : st0.mapping.getD (ψ mx) none = none :=
      agrees_unmapped_psi g0 g1 st0 st1 φ ψ hW
        ⟨hr1, hr2, hi1, hi2, hmat, hdeg, hindeg⟩ hagree mx hunm hlt
    refine ⟨⟨?_, ?_, hunm0⟩, by rw [hW.dir0]; exact hg0d⟩
    · rw [hW.len_i0, hg0d]
      simp only [if_true]
      exact hψlt
    · apply (hW.sem_ins0 hg0d (ψ mx) hψlt).mpr
      obtain ⟨u1, j1, hu1, hmem⟩ := (hW.sem_ins1 hg1d mx hlt).mp hmark
      have hj1 := hW.inv.2 u1 j1 hu1
      have hj1lt : j1 < g0.node_count := by
        have := getD_some_lt st0.mapping j1 u1 hj1
        rwa [hW.len_m0] at this
      have hu1φ : u1 = φ j1 := hagree j1 u1 hj1
      have hedge1 : g1.adj_matrix mx u1 = true :=
        mem_incoming_adj g1 u1 mx hmem
      have hne : ψ mx ≠ j1 := by
        intro he
        rw [← he, hunm0] at hj1
        cases hj1
      have hiff := hmat (ψ mx) j1 hψlt hj1lt hne
      rw [← hu1φ, hi2 mx hlt] at hiff
      have hedge0 : g0.adj_matrix (ψ mx) j1 = true := by rw [hiff]; exact hedge1
      exact ⟨j1, u1, hj1, adj_mem_incoming g0 (ψ mx) j1 hg0d hedge0⟩
  · -- Other
    obtain ⟨hlt, hunm⟩ := hQ
    rw [hW.len_m1] at hlt
    have hψlt : ψ mx < g0.node_count := hr2 mx hlt
    have hunm0 : st0.mapping.getD (ψ mx) none = none :=
      agrees_unmapped_psi g0 g1 st0 st1 φ ψ hW
        ⟨hr1, hr2, hi1, hi2, hmat, hdeg, hindeg⟩ hagree mx hunm hlt
    exact ⟨by rw [hW.len_m0]; exact hψlt, hunm0⟩

lemma feasible_good (g0 g1 : Graph) (st0 st1 : Vf2State) (φ ψ : Nat → Nat)
    (hW : SearchInv g0 g1 st0 st1)
    (hiso : iso_pair g0 g1 φ ψ) (hagree : mapping_agrees φ st0) (mx : Nat)
    (hmxlt : mx < g1.node_count) (hmxunm : st1.mapping.getD mx none = none) :
    feasible g0 g1 st0 st1 (ψ mx) mx = true := by
  have hψunm : st0.mapping.getD (ψ mx) none = none :=
    agrees_unmapped_psi g0 g1 st0 st1 φ ψ hW hiso hagree mx hmxunm hmxlt
  obtain ⟨hr1, hr2, hi1, hi2, hmat, hdeg, hindeg⟩ := hiso
  have hψlt : ψ mx < g0.node_count := hr2 mx hmxlt
  have hs0 : succ_adj_ok g0 g1 st0 st1 (ψ mx) mx = true := by
    unfold succ_adj_ok
    rw [List.all_eq_true]
    intro nn hnn
    show (match st0.mapping.getD nn none with
          | none => true
          | some m_neigh => g1.is_adjacent st1.adjacency_matrix mx m_neigh) = true
    rcases hm : st0.mapping.getD nn none with _ | w
    · rfl
    · show st1.adjacency_matrix mx w = true
      rw [hW.mat1]
      have hwφ : w = φ nn := hagree nn w hm
      have hnlt : nn < g0.node_count := by
        have := getD_some_lt st0.mapping nn w hm
        rwa [hW.len_m0] at this
      have hne : ψ mx ≠ nn := by
        intro he
        rw [← he, hψunm] at hm
        cases hm
      have hiff := hmat (ψ mx) nn hψlt hnlt hne
      rw [hi2 mx hmxlt] at hiff
      rw [hwφ, ← hiff]
      exact mem_neighbors_adj g0 (ψ mx) nn hnn
  have hs1 : succ_adj_ok g1 g0 st1 st0 mx (ψ mx) = true := by
    unfold succ_adj_ok
    rw [List.all_eq_true]
    intro nn hnn
    show (match st1.mapping.getD nn none with
          | none => true
          | some m_neigh => g0.is_adjacent st0.adjacency_matrix (ψ mx) m_neigh) = true
    rcases hm : st1.mapping.getD nn none with _ | w
    · rfl
    · show st0.adjacency_matrix (ψ mx) w = true
      rw [hW.mat0]
      have hw0 : st0.mapping.getD w none = some nn := hW.inv.2 nn w hm
      have hnnφ : nn = φ w := hagree w nn hw0
      have hwlt : w < g0.node_count := by
        have := getD_some_lt st0.mapping w nn hw0
        rwa [hW.len_m0] at this
      have hne : ψ mx ≠ w := by
        intro he
        rw [← he, hψunm] at hw0
        cases hw0
      have hiff := hmat (ψ mx) w hψlt hwlt hne
      rw [hi2 mx hmxlt] at hiff
      rw [hiff, ← hnnφ]
      exact mem_neighbors_adj g1 mx nn hnn
  have hlen : ((g0.neighbors (ψ mx)).length == (g1.neighbors mx).length) = true := by
    have := hdeg (ψ mx) hψlt
    rw [hi2 mx hmxlt] at this
    exact beq_iff_eq.mpr this
  unfold feasible
  rw [hs0, hs1, hlen]
  cases hd : g0.directed
  · simp
  · have hp0 : pred_adj_ok g0 g1 st0 st1 (ψ mx) mx = true := by
      unfold pred_adj_ok
      rw [List.all_eq_true]
      intro nn hnn
      show (match st0.mapping.getD nn none with
            | none => true
            | some m_neigh => g1.is_adjacent st1.adjacency_matrix m_neigh mx) = true
      rcases hm : st0.mapping.getD nn none with _ | w
      · rfl
      · show st1.adjacency_matrix w mx = true
        rw [hW.mat1]
        have hwφ : w = φ nn := hagree nn w hm
        have hnlt : nn < g0.node_count := by
          have := getD_some_lt st0.mapping nn w hm
          rwa [hW.len_m0] at this
        have hne : nn ≠ ψ mx := by
          intro he
          rw [he, hψunm] at hm
          cases hm
        have hiff := hmat nn (ψ mx) hnlt hψlt hne
        rw [hi2 mx hmxlt] at hiff
        rw [hwφ, ← hiff]
        exact mem_incoming_adj g0 (ψ mx) nn hnn
    have hp1 : pred_adj_ok g1 g0 st1 st0 mx (ψ mx) = true := by
      unfold pred_adj_ok
      rw [List.all_eq_true]
      intro nn hnn
      show (match st1.mapping.getD nn none with
            | none => true
            | some m_neigh => g0.is_adjacent st0.adjacency_matrix m_neigh (ψ mx)) = true
      rcases hm : st1.mapping.getD nn none with _ | w
      · rfl
      · show st0.adjacency_matrix w (ψ mx) = true
        rw [hW.mat0]
        have hw0 : st0.mapping.getD w none = some nn := hW.inv.2 nn w hm
        have hnnφ : nn = φ w := hagree w nn hw0
        have hwlt : w < g0.node_count := by
          have := getD_some_lt st0.mapping w nn hw0
          rwa [hW.len_m0] at this
        have hne : w ≠ ψ mx := by
          intro he
          rw [he, hψunm] at hw0
          cases hw0
        have hiff := hmat w (ψ mx) hwlt hψlt hne
        rw [hi2 mx hmxlt] at hiff
        rw [hiff, ← hnnφ]
        exact mem_incoming_adj g1 mx nn hnn
    have hplen : ((g0.neighbors_incoming (ψ mx)).length ==
        (g1.neighbors_incoming mx).length) = true := by
      have := hindeg hd (ψ mx) hψlt
      rw [hi2 mx hmxlt] at this
      exact beq_iff_eq.mpr this
    simp [hp0, hp1, hplen]

lemma push_mapping_ins (st : Vf2State) (fr t : Nat) (g : Graph) :
    (st.push_mapping fr t g).ins =
      if g.directed then
        mark_list (st.generation + 1) (g.neighbors_incoming fr) st.ins
      else st.ins := by
  cases hd : g.directed
  · rw [push_mapping_eq_undirected st fr t g hd]
    simp
  · rw [push_mapping_eq_directed st fr t g hd]
    simp

lemma succ_adj_ok_spec (g og : Graph) (st ost : Vf2State) (node other_node : Nat)
    (h : succ_adj_ok g og st ost node other_node = true) :
    ∀ nn w, nn ∈ g.neighbors node → st.mapping.getD nn none = some w →
      ost.adjacency_matrix other_node w = true := by
  intro nn w hmem hm
  have hb := List.all_eq_true.mp h nn hmem
  show og.is_adjacent ost.adjacency_matrix other_node w = true
  rw [show og.is_adjacent ost.adjacency_matrix other_node w =
      (match st.mapping.getD nn none with
       | none => true
       | some m_neigh => og.is_adjacent ost.adjacency_matrix other_node m_neigh)
    from by rw [hm]]
  exact hb

lemma pred_adj_ok_spec (g og : Graph) (st ost : Vf2State) (node other_node : Nat)
    (h : pred_adj_ok g og st ost node other_node = true) :
    ∀ nn w, nn ∈ g.neighbors_incoming node → st.mapping.getD nn none = some w →
      ost.adjacency_matrix w other_node = true := by
  intro nn w hmem hm
  have hb := List.all_eq_true.mp h nn hmem
  show og.is_adjacent ost.adjacency_matrix w other_node = true
  rw [show og.is_adjacent ost.adjacency_matrix w other_node =
      (match st.mapping.getD nn none with
       | none => true
       | some m_neigh => og.is_adjacent ost.adjacency_matrix m_neigh other_node)
    from by rw [hm]]
  exact hb

lemma mark_le_push_out (st : Vf2State) (fr t : Nat) (g : Graph)
    (h : ∀ i, st.out.getD i 0 ≤ st.generation) :
    ∀ i, (st.push_mapping fr t g).out.getD i 0 ≤ (st.push_mapping fr t g).generation := by
  intro i
  rw [push_mapping_out, push_mapping_generation,
    mark_list_getD (st.generation + 1) (by omega)]
  have := h i
  split
  · omega
  · omega

lemma mark_le_push_ins (st : Vf2State) (fr t : Nat) (g : Graph)
    (h : ∀ i, st.ins.getD i 0 ≤ st.generation) :
    ∀ i, (st.push_mapping fr t g).ins.getD i 0 ≤ (st.push_mapping fr t g).generation := by
  intro i
  rw [push_mapping_ins, push_mapping_generation]
  have := h i
  cases hd : g.directed
  · simp only [Bool.false_eq_true, if_false]
    omega
  · simp only [if_true]
    rw [mark_list_getD (st.generation + 1) (by omega)]
    split
    · omega
    · omega

lemma sem_out_push (st : Vf2State) (fr t : Nat) (g : Graph)
    (hlen_o : st.out.length = g.node_count)
    (hlen_m : st.mapping.length = g.node_count)
    (hfr_lt : fr < g.node_count)
    (hfr_unm : st.mapping.getD fr none = none)
    (hsem : ∀ i, i < g.node_count →
      (0 < st.out.getD i 0 ↔
        ∃ u j, st.mapping.getD u none = some j ∧ i ∈ g.neighbors u)) :
    ∀ i, i < g.node_count →
      (0 < (st.push_mapping fr t g).out.getD i 0 ↔
        ∃ u j, (st.push_mapping fr t g).mapping.getD u none = some j ∧
          i ∈ g.neighbors u) := by
  intro i hi
  rw [push_mapping_out, mark_list_getD (st.generation + 1) (by omega)]
  constructor
  · intro hpos
    by_cases hcond : i ∈ g.neighbors fr ∧ st.out.getD i 0 = 0 ∧ i < st.out.length
    · refine ⟨fr, t, ?_, hcond.1⟩
      rw [push_mapping_mapping, list_getD_set]
      rw [if_pos ⟨rfl, by rw [hlen_m]; exact hfr_lt⟩]
    · rw [if_neg hcond] at hpos
      obtain ⟨u, j, hu, hmem⟩ := (hsem i hi).mp hpos
      refine ⟨u, j, ?_, hmem⟩
      rw [push_mapping_mapping, list_getD_set]
      have hne : ¬ (fr = u ∧ fr < st.mapping.length) := by
        rintro ⟨rfl, _⟩
        rw [hfr_unm] at hu
        cases hu
      rw [if_neg hne]
      exact hu
  · rintro ⟨u, j, hu, hmem⟩
    rw [push_mapping_mapping, list_getD_set] at hu
    by_cases hfu : fr = u ∧ fr < st.mapping.length
    · obtain ⟨rfl, _⟩ := hfu
      by_cases hcond : i ∈ g.neighbors fr ∧ st.out.getD i 0 = 0 ∧ i < st.out.length
      · rw [if_pos hcond]
        omega
      · rw [if_neg hcond]
        have hilen : i < st.out.length := by rw [hlen_o]; exact hi
        rcases Nat.eq_zero_or_pos (st.out.getD i 0) with hz | hp
        · exact absurd ⟨hmem, hz, hilen⟩ hcond
        · exact hp
    · rw [if_neg hfu] at hu
      have hpos := (hsem i hi).mpr ⟨u, j, hu, hmem⟩
      split
      · omega
      · exact hpos

lemma sem_ins_push (st : Vf2State) (fr t : Nat) (g : Graph)
    (hd : g.directed = true)
    (hlen_i : st.ins.length = if g.directed then g.node_count else 0)
    (hlen_m : st.mapping.length = g.node_count)
    (hfr_lt : fr < g.node_count)
    (hfr_unm : st.mapping.getD fr none = none)
    (hsem : ∀ i, i < g.node_count →
      (0 < st.ins.getD i 0 ↔
        ∃ u j, st.mapping.getD u none = some j ∧ i ∈ g.neighbors_incoming u)) :
    ∀ i, i < g.node_count →
      (0 < (st.push_mapping fr t g).ins.getD i 0 ↔
        ∃ u j, (st.push_mapping fr t g).mapping.getD u none = some j ∧
          i ∈ g.neighbors_incoming u) := by
  intro i hi
  rw [push_mapping_ins, hd]
  simp only [if_true]
  rw [mark_list_getD (st.generation + 1) (by omega)]
  have hlen_i' : st.ins.length = g.node_count := by rw [hlen_i, hd]; simp
  constructor
  · intro hpos
    by_cases hcond : i ∈ g.neighbors_incoming fr ∧ st.ins.getD i 0 = 0 ∧
        i < st.ins.length
    · refine ⟨fr, t, ?_, hcond.1⟩
      rw [push_mapping_mapping, list_getD_set]
      rw [if_pos ⟨rfl, by rw [hlen_m]; exact hfr_lt⟩]
    · rw [if_neg hcond] at hpos
      obtain ⟨u, j, hu, hmem⟩ := (hsem i hi).mp hpos
      refine ⟨u, j, ?_, hmem⟩
      rw [push_mapping_mapping, list_getD_set]
      have hne : ¬ (fr = u ∧ fr < st.mapping.length) := by
        rintro ⟨rfl, _⟩
        rw [hfr_unm] at hu
        cases hu
      rw [if_neg hne]
      exact hu
  · rintro ⟨u, j, hu, hmem⟩
    rw [push_mapping_mapping, list_getD_set] at hu
    by_cases hfu : fr = u ∧ fr < st.mapping.length
    · obtain ⟨rfl, _⟩ := hfu
      by_cases hcond : i ∈ g.neighbors_incoming fr ∧ st.ins.getD i 0 = 0 ∧
          i < st.ins.length
      · rw [if_pos hcond]
        omega
      · rw [if_neg hcond]
        have hilen : i < st.ins.length := by rw [hlen_i']; exact hi
        rcases Nat.eq_zero_or_pos (st.ins.getD i 0) with hz | hp
        · exact absurd ⟨hmem, hz, hilen⟩ hcond
        · exact hp
    · rw [if_neg hfu] at hu
      have hpos := (hsem i hi).mpr ⟨u, j, hu, hmem⟩
      split
      · omega
      · exact hpos

lemma feasible_decompose (g0 g1 : Graph) (st0 st1 : Vf2State) (nx mx : Nat)
    (hf : feasible g0 g1 st0 st1 nx mx = true) :
    succ_adj_ok g0 g1 st0 st1 nx mx = true ∧
    succ_adj_ok g1 g0 st1 st0 mx nx = true ∧
    (g0.neighbors nx).length = (g1.neighbors mx).length ∧
    (g0.directed = true →
      pred_adj_ok g0 g1 st0 st1 nx mx = true ∧
      pred_adj_ok g1 g0 st1 st0 mx nx = true ∧
      (g0.neighbors_incoming nx).length = (g1.neighbors_incoming mx).length) := by
  unfold feasible at hf
  simp only [Bool.and_eq_true, Bool.or_eq_true, beq_iff_eq, Bool.not_eq_true'] at hf
  obtain ⟨⟨⟨h1, h2⟩, h3⟩, h4⟩ := hf
  refine ⟨h1, h2, h3, ?_⟩
  intro hd
  rcases h4 with h4 | h4
  · rw [hd] at h4
    cases h4
  · exact ⟨h4.1.1, h4.1.2, h4.2⟩

lemma piso_mat_push_pair (g0 g1 : Graph) (st0 st1 : Vf2State) (nx mx : Nat)
    (hW : SearchInv g0 g1 st0 st1) (hdir : g0.directed = g1.directed)
    (hs0 : succ_adj_ok g0 g1 st0 st1 nx mx = true)
    (hs1 : succ_adj_ok g1 g0 st1 st0 mx nx = true)
    (hpred : g0.directed = true →
      pred_adj_ok g0 g1 st0 st1 nx mx = true ∧
      pred_adj_ok g1 g0 st1 st0 mx nx = true) :
    (∀ b b', st0.mapping.getD b none = some b' →
      g0.adj_matrix nx b = g1.adj_matrix mx b') ∧
    (∀ a a', st0.mapping.getD a none = some a' →
      g0.adj_matrix a nx = g1.adj_matrix a' mx) := by
  have hforward : ∀ b b', st0.mapping.getD b none = some b' →
      g0.adj_matrix nx b = g1.adj_matrix mx b' := by
    intro b b' hb
    cases hm0 : g0.adj_matrix nx b
    · cases hm1 : g1.adj_matrix mx b'
      · rfl
      · exfalso
        have hmem1 : b' ∈ g1.neighbors mx := adj_mem_neighbors g1 mx b' hm1
        have hb1 : st1.mapping.getD b' none = some b := hW.inv.1 b b' hb
        have := succ_adj_ok_spec g1 g0 st1 st0 mx nx hs1 b' b hmem1 hb1
        rw [hW.mat0] at this
        rw [this] at hm0
        cases hm0
    · have hmem0 : b ∈ g0.neighbors nx := adj_mem_neighbors g0 nx b hm0
      have := succ_adj_ok_spec g0 g1 st0 st1 nx mx hs0 b b' hmem0 hb
      rw [hW.mat1] at this
      rw [this]
  refine ⟨hforward, ?_⟩
  intro a a' ha
  cases hd : g0.directed
  · have hd1 : g1.directed = false := by rw [← hdir]; exact hd
    rw [adj_matrix_symm g0 a nx hd, adj_matrix_symm g1 a' mx hd1]
    exact hforward a a' ha
  · obtain ⟨hp0, hp1⟩ := hpred hd
    have hd1 : g1.directed = true := by rw [← hdir]; exact hd
    cases hm0 : g0.adj_matrix a nx
    · cases hm1 : g1.adj_matrix a' mx
      · rfl
      · exfalso
        have hmem1 : a' ∈ g1.neighbors_incoming mx :=
          adj_mem_incoming g1 a' mx hd1 hm1
        have ha1 : st1.mapping.getD a' none = some a := hW.inv.1 a a' ha
        have := pred_adj_ok_spec g1 g0 st1 st0 mx nx hp1 a' a hmem1 ha1
        rw [hW.mat0] at this
        rw [this] at hm0
        cases hm0
    · have hmem0 : a ∈ g0.neighbors_incoming nx :=
        adj_mem_incoming g0 a nx hd hm0
      have := pred_adj_ok_spec g0 g1 st0 st1 nx mx hp0 a a' hmem0 ha
      rw [hW.mat1] at this
      rw [this]

lemma SearchInv_push (g0 g1 : Graph) (st0 st1 : Vf2State) (nx mx : Nat)
    (hW : SearchInv g0 g1 st0 st1) (hdir : g0.directed = g1.directed)
    (hnx_unm : st0.mapping.getD nx none = none)
    (hmx_unm : st1.mapping.getD mx none = none)
    (hnx_lt : nx < g0.node_count) (hmx_lt : mx < g1.node_count)
    (hf : feasible g0 g1 st0 st1 nx mx = true) :
    SearchInv g0 g1 (st0.push_mapping nx mx g0) (st1.push_mapping mx nx g1) := by
  obtain ⟨hs0, hs1, hlen, hpredall⟩ := feasible_decompose g0 g1 st0 st1 nx mx hf
  obtain ⟨hfor, hback⟩ := piso_mat_push_pair g0 g1 st0 st1 nx mx hW hdir hs0 hs1
    (fun hd => ⟨(hpredall hd).1, (hpredall hd).2.1⟩)
  refine ⟨?_, ?_, ?_, ?_, ?_, ?_, ?_, ?_, ?_, ?_, ?_, ?_, ?_, ?_, ?_, ?_, ?_, ?_,
    ?_, ?_, ?_, ?_, ?_, ?_⟩
  · rw [push_mapping_mapping, List.length_set]
    exact hW.len_m0
  · rw [push_mapping_mapping, List.length_set]
    exact hW.len_m1
  · rw [push_mapping_out, mark_list_length]
    exact hW.len_o0
  · rw [push_mapping_out, mark_list_length]
    exact hW.len_o1
  · have h := hW.len_i0
    rw [push_mapping_ins]
    cases hd : g0.directed
    · rw [hd] at h
      simpa using h
    · rw [hd] at h
      simp only [if_true] at h ⊢
      rw [mark_list_length]
      simpa using h
  · have h := hW.len_i1
    rw [push_mapping_ins]
    cases hd : g1.directed
    · rw [hd] at h
      simpa using h
    · rw [hd] at h
      simp only [if_true] at h ⊢
      rw [mark_list_length]
      simpa using h
  · rw [push_mapping_adjacency_matrix]
    exact hW.mat0
  · rw [push_mapping_adjacency_matrix]
    exact hW.mat1
  · rw [push_mapping_directed]
    exact hW.dir0
  · rw [push_mapping_directed]
    exact hW.dir1
  · rw [push_mapping_generation, push_mapping_generation, hW.gen_sync]
  · rw [push_mapping_mapping, push_mapping_generation,
      countP_isSome_set st0.mapping nx mx (by rw [hW.len_m0]; exact hnx_lt) hnx_unm,
      hW.count0]
  · rw [push_mapping_mapping, push_mapping_generation,
      countP_isSome_set st1.mapping mx nx (by rw [hW.len_m1]; exact hmx_lt) hmx_unm,
      hW.count1]
  · exact mutual_inverse_push st0 st1 nx mx g0 g1 hW.inv hnx_unm hmx_unm
      (by rw [hW.len_m0]; exact hnx_lt) (by rw [hW.len_m1]; exact hmx_lt)
  · exact mark_le_push_out st0 nx mx g0 hW.mark_le_out0
  · exact mark_le_push_out st1 mx nx g1 hW.mark_le_out1
  · exact mark_le_push_ins st0 nx mx g0 hW.mark_le_ins0
  · exact mark_le_push_ins st1 mx nx g1 hW.mark_le_ins1
  · exact sem_out_push st0 nx mx g0 hW.len_o0 hW.len_m0 hnx_lt hnx_unm hW.sem_out0
  · exact sem_out_push st1 mx nx g1 hW.len_o1 hW.len_m1 hmx_lt hmx_unm hW.sem_out1
  · intro hd
    exact sem_ins_push st0 nx mx g0 hd hW.len_i0 hW.len_m0 hnx_lt hnx_unm
      (hW.sem_ins0 hd)
  · intro hd
    exact sem_ins_push st1 mx nx g1 hd hW.len_i1 hW.len_m1 hmx_lt hmx_unm
      (hW.sem_ins1 hd)
  · intro a b a' b' hab ha hb
    rw [push_mapping_mapping, list_getD_set] at ha hb
    by_cases hna : nx = a ∧ nx < st0.mapping.length
    · rw [if_pos hna] at ha
      have ha' : a' = mx := (Option.some.inj ha).symm
      obtain ⟨hea, _⟩ := hna
      subst hea
      subst ha'
      by_cases hnb : nx = b ∧ nx < st0.mapping.length
      · exact absurd hnb.1 hab
      · rw [if_neg hnb] at hb
        exact hfor b b' hb
    · rw [if_neg hna] at ha
      by_cases hnb : nx = b ∧ nx < st0.mapping.length
      · rw [if_pos hnb] at hb
        have hb' : b' = mx := (Option.some.inj hb).symm
        obtain ⟨heb, _⟩ := hnb
        subst heb
        subst hb'
        exact hback a a' ha
      · rw [if_neg hnb] at hb
        exact hW.piso_mat a b a' b' hab ha hb
  · intro a a' ha
    rw [push_mapping_mapping, list_getD_set] at ha
    by_cases hna : nx = a ∧ nx < st0.mapping.length
    · rw [if_pos hna] at ha
      have ha' : a' = mx := (Option.some.inj ha).symm
      obtain ⟨hea, _⟩ := hna
      subst hea
      subst ha'
      exact ⟨hlen, fun hd => (hpredall hd).2.2⟩
    · rw [if_neg hna] at ha
      exact hW.piso_deg a a' ha

lemma Qlist_unmapped (st : Vf2State) (list : OpenList) (i : Nat)
    (hQ : Qlist st list i) : st.mapping.getD i none = none := by
  cases list
  · exact hQ.2.2
  · exact hQ.1.2.2
  · exact hQ.2

lemma Qlist_lt (st : Vf2State) (n : Nat)
    (lo : st.out.length = n) (lm : st.mapping.length = n)
    (li : st.ins.length = if st.directed then n else 0)
    (list : OpenList) (i : Nat) (hQ : Qlist st list i) : i < n := by
  cases list
  · rw [← lo]
    exact hQ.1
  · have h1 := hQ.1.1
    rw [li, hQ.2] at h1
    simpa using h1
  · rw [← lm]
    exact hQ.1

lemma mapping_agrees_push (φ : Nat → Nat) (st : Vf2State) (nx mx : Nat) (g : Graph)
    (hagree : mapping_agrees φ st) (hφ : φ nx = mx) :
    mapping_agrees φ (st.push_mapping nx mx g) := by
  intro i j h
  rw [push_mapping_mapping, list_getD_set] at h
  by_cases hc : nx = i ∧ nx < st.mapping.length
  · rw [if_pos hc] at h
    rw [← hc.1, hφ]
    exact (Option.some.inj h).symm
  · rw [if_neg hc] at h
    exact hagree i j h

lemma next_from_index_some (st : Vf2State) (list : OpenList) (start r : Nat)
    (h : next_from_index st list start = some r) :
    Qlist st list r ∧ start ≤ r ∧ ∀ j, start ≤ j → j < r → ¬ Qlist st list j := by
  cases list
  · obtain ⟨c, hc, hr⟩ := Option.map_eq_some'.mp h
    obtain ⟨hQ, hmin⟩ := (next_out_index_eq_some_iff st start c).mp hc
    have hr' : r = start + c := by omega
    subst hr'
    exact ⟨hQ, by omega, fun j h1 h2 => hmin j h1 h2⟩
  · obtain ⟨c, hc, hr⟩ := Option.map_eq_some'.mp h
    cases hd : st.directed
    · rw [next_in_index_undirected st start hd] at hc
      cases hc
    · obtain ⟨hQ, hmin⟩ := (next_in_index_eq_some_iff st start c hd).mp hc
      have hr' : r = start + c := by omega
      subst hr'
      exact ⟨⟨hQ, hd⟩, by omega, fun j h1 h2 hQj => hmin j h1 h2 hQj.1⟩
  · obtain ⟨c, hc, hr⟩ := Option.map_eq_some'.mp h
    obtain ⟨hQ, hmin⟩ := (next_rest_index_eq_some_iff st start c).mp hc
    have hr' : r = start + c := by omega
    subst hr'
    exact ⟨hQ, by omega, fun j h1 h2 => hmin j h1 h2⟩

lemma next_from_index_reaches (st : Vf2State) (list : OpenList) (start t : Nat)
    (hQ : Qlist st list t) (hle : start ≤ t) :
    ∃ r, next_from_index st list start = some r ∧ r ≤ t ∧ Qlist st list r := by
  rcases h : next_from_index st list start with _ | r
  · exfalso
    cases list
    · have hnone := Option.map_eq_none'.mp h
      exact (next_out_index_eq_none_iff st start).mp hnone t hle hQ
    · cases hd : st.directed
      · rw [hQ.2] at hd
        cases hd
      · have hnone := Option.map_eq_none'.mp h
        exact (next_in_index_eq_none_iff st start hd).mp hnone t hle hQ.1
    · have hnone := Option.map_eq_none'.mp h
      exact (next_rest_index_eq_none_iff st start).mp hnone t hle hQ
  · obtain ⟨hQr, hsr, hmin⟩ := next_from_index_some st list start r h
    refine ⟨r, rfl, ?_, hQr⟩
    by_contra hgt
    exact hmin t hle (by omega) hQ

lemma exists_QRest (st : Vf2State)
    (hcount : List.countP (fun o => o.isSome) st.mapping < st.mapping.length) :
    ∃ i, QRest st i := by
  have hnall : ¬ ∀ a ∈ st.mapping, (fun o : Option Nat => o.isSome) a = true := by
    intro hall
    have := List.countP_eq_length.mpr hall
    omega
  push_neg at hnall
  obtain ⟨a, ha, hna⟩ := hnall
  obtain ⟨i, hi, hval⟩ := List.mem_iff_getElem.mp ha
  refine ⟨i, hi, ?_⟩
  rw [List.getD_eq_getElem _ none hi, hval]
  cases a
  · rfl
  · simp at hna

lemma restore_pair (g0 g1 : Graph) (st0 st1 : Vf2State) (nx mx : Nat)
    (hW : SearchInv g0 g1 st0 st1)
    (hnx : st0.mapping.getD nx none = none) (hmx : st1.mapping.getD mx none = none) :
    (st0.push_mapping nx mx g0).pop_mapping nx g0 = st0 ∧
    (st1.push_mapping mx nx g1).pop_mapping mx g1 = st1 :=
  ⟨push_pop_restore st0 nx mx g0 hnx (fun i _ => hW.mark_le_out0 i)
     (fun _ i _ => hW.mark_le_ins0 i),
   push_pop_restore st1 mx nx g1 hmx (fun i _ => hW.mark_le_out1 i)
     (fun _ i _ => hW.mark_le_ins1 i)⟩

lemma select_candidates_decompose (st0 st1 : Vf2State) (cand0 cand1 : Nat)
    (list : OpenList)
    (h : select_candidates st0 st1 = some (cand0, cand1, list)) :
    Qlist st0 list cand0 ∧ Qlist st1 list cand1 ∧
      ∀ j, j < cand0 → ¬ Qlist st0 list j := by
  rw [select_candidates_eq_spec] at h
  unfold select_candidates_spec at h
  split at h
  · next m n hm hn =>
    obtain ⟨rfl, rfl, rfl⟩ : n = cand0 ∧ m = cand1 ∧ OpenList.Out = list := by
      simpa using h
    obtain ⟨hQ0, hmin0⟩ := (next_out_index_eq_some_iff st0 0 n).mp hn
    obtain ⟨hQ1, hx⟩ := (next_out_index_eq_some_iff st1 0 m).mp hm
    simp only [Nat.zero_add] at hQ0 hmin0 hQ1
    exact ⟨hQ0, hQ1, fun j hj => hmin0 j (Nat.zero_le j) (by omega)⟩
  · next =>
    split at h
    · next m n hm hn =>
      have hd1 : st1.directed = true := by
        cases hd : st1.directed
        · rw [next_in_index_undirected st1 0 hd] at hm
          cases hm
        · rfl
      have hd0 : st0.directed = true := by
        cases hd : st0.directed
        · rw [next_in_index_undirected st0 0 hd] at hn
          cases hn
        · rfl
      obtain ⟨rfl, rfl, rfl⟩ : n = cand0 ∧ m = cand1 ∧ OpenList.In = list := by
        simpa using h
      obtain ⟨hQ0, hmin0⟩ := (next_in_index_eq_some_iff st0 0 n hd0).mp hn
      obtain ⟨hQ1, hx⟩ := (next_in_index_eq_some_iff st1 0 m hd1).mp hm
      simp only [Nat.zero_add] at hQ0 hmin0 hQ1
      exact ⟨⟨hQ0, hd0⟩, ⟨hQ1, hd1⟩,
        fun j hj hQj => hmin0 j (Nat.zero_le j) (by omega) hQj.1⟩
    · next =>
      split at h
      · next m n hm hn =>
        obtain ⟨rfl, rfl, rfl⟩ : n = cand0 ∧ m = cand1 ∧ OpenList.Other = list := by
          simpa using h
        obtain ⟨hQ0, hmin0⟩ := (next_rest_index_eq_some_iff st0 0 n).mp hn
        obtain ⟨hQ1, hx⟩ := (next_rest_index_eq_some_iff st1 0 m).mp hm
        simp only [Nat.zero_add] at hQ0 hmin0 hQ1
        exact ⟨hQ0, hQ1, fun j hj => hmin0 j (Nat.zero_le j) (by omega)⟩
      · next =>
        cases h

lemma select_candidates_of_incomplete (g0 g1 : Graph) (st0 st1 : Vf2State)
    (hW : SearchInv g0 g1 st0 st1) (hnodes : g0.node_count = g1.node_count)
    (hcomp : st0.is_complete = false) :
    ∃ c, select_candidates st0 st1 = some c := by
  have hgen_lt : st0.generation < g0.node_count := by
    have h1 := hW.count0
    have h2 : List.countP (fun o : Option Nat => o.isSome) st0.mapping ≤
        st0.mapping.length := List.countP_le_length _
    have hne : ¬ st0.generation = st0.mapping.length := by
      simpa [Vf2State.is_complete] using hcomp
    rw [hW.len_m0] at h2 hne
    omega
  obtain ⟨i0, hi0⟩ : ∃ i, QRest st0 i :=
    exists_QRest st0 (by rw [hW.count0, hW.len_m0]; exact hgen_lt)
  obtain ⟨i1, hi1⟩ : ∃ i, QRest st1 i :=
    exists_QRest st1 (by
      rw [hW.count1, ← hW.gen_sync, hW.len_m1, ← hnodes]; exact hgen_lt)
  obtain ⟨c0, hc0⟩ : ∃ c, st0.next_rest_index 0 = some c := by
    rcases hx : st0.next_rest_index 0 with _ | c
    · exact absurd hi0 ((next_rest_index_eq_none_iff st0 0).mp hx i0 (Nat.zero_le _))
    · exact ⟨c, rfl⟩
  obtain ⟨c1, hc1⟩ : ∃ c, st1.next_rest_index 0 = some c := by
    rcases hx : st1.next_rest_index 0 with _ | c
    · exact absurd hi1 ((next_rest_index_eq_none_iff st1 0).mp hx i1 (Nat.zero_le _))
    · exact ⟨c, rfl⟩
  rw [select_candidates_eq_spec]
  unfold select_candidates_spec
  rcases hto : st1.next_out_index 0 with _ | m0 <;>
    rcases hfo : st0.next_out_index 0 with _ | n0 <;>
    rcases hti : st1.next_in_index 0 with _ | m1 <;>
    rcases hfi : st0.next_in_index 0 with _ | n1 <;>
    simp [hto, hfo, hti, hfi, hc0, hc1]

lemma candidates_loop_main (g0 g1 : Graph)
    (hdir : g0.directed = g1.directed)
    (recurse : Vf2State → Vf2State → Option Bool × Vf2State × Vf2State)
    (list : OpenList) (mx : Nat)
    (HNF : ∀ s0 s1, (recurse s0 s1).1 ≠ some false)
    (Hnone : ∀ s0 s1, SearchInv g0 g1 s0 s1 → (recurse s0 s1).1 = none →
      (recurse s0 s1).2.1 = s0 ∧ (recurse s0 s1).2.2 = s1)
    (Hsound : ∀ s0 s1, SearchInv g0 g1 s0 s1 → (recurse s0 s1).1 = some true →
      ∃ φ ψ, iso_pair g0 g1 φ ψ) :
    ∀ cfuel nx st0 st1, SearchInv g0 g1 st0 st1 →
      Qlist st0 list nx → Qlist st1 list mx →
      (((candidates_loop g0 g1 recurse list mx cfuel nx st0 st1).1 = none →
        (candidates_loop g0 g1 recurse list mx cfuel nx st0 st1).2.1 = st0 ∧
        (candidates_loop g0 g1 recurse list mx cfuel nx st0 st1).2.2 = st1) ∧
      ((candidates_loop g0 g1 recurse list mx cfuel nx st0 st1).1 = some true →
        ∃ φ ψ, iso_pair g0 g1 φ ψ) ∧
      (∀ φ ψ, iso_pair g0 g1 φ ψ → mapping_agrees φ st0 →
        (∀ s0 s1, SearchInv g0 g1 s0 s1 → mapping_agrees φ s0 →
          s0.generation = st0.generation + 1 → (recurse s0 s1).1 = some true) →
        nx ≤ ψ mx → ψ mx - nx < cfuel →
        (candidates_loop g0 g1 recurse list mx cfuel nx st0 st1).1 = some true)) := by
  intro cfuel
  induction cfuel with
  | zero =>
    intro nx st0 st1 hW hQn hQm
    refine ⟨fun _ => ⟨rfl, rfl⟩, ?_, ?_⟩
    · intro hsome
      simp [candidates_loop] at hsome
    · intro φ ψ hiso hagree Hcompl hle hflt
      omega
  | succ cfuel ih =>
    intro nx st0 st1 hW hQn hQm
    have hnx_unm := Qlist_unmapped st0 list nx hQn
    have hmx_unm := Qlist_unmapped st1 list mx hQm
    have hnx_lt : nx < g0.node_count :=
      Qlist_lt st0 g0.node_count hW.len_o0 hW.len_m0
        (by rw [hW.dir0]; exact hW.len_i0) list nx hQn
    have hmx_lt : mx < g1.node_count :=
      Qlist_lt st1 g1.node_count hW.len_o1 hW.len_m1
        (by rw [hW.dir1]; exact hW.len_i1) list mx hQm
    by_cases hfe : feasible g0 g1 st0 st1 nx mx
    · have hWp := SearchInv_push g0 g1 st0 st1 nx mx hW hdir hnx_unm hmx_unm
        hnx_lt hmx_lt hfe
      rcases hrec : recurse (st0.push_mapping nx mx g0) (st1.push_mapping mx nx g1)
        with ⟨ro, s0, s1⟩
      rcases ro with _ | r
      · -- the recursive call gave no decision: its states are restored, pop undoes the push
        have hres := Hnone _ _ hWp (by rw [hrec])
        rw [hrec] at hres
        have hs0' : s0 = st0.push_mapping nx mx g0 := hres.1
        have hs1' : s1 = st1.push_mapping mx nx g1 := hres.2
        have hpop := restore_pair g0 g1 st0 st1 nx mx hW hnx_unm hmx_unm
        have hs0q : s0.pop_mapping nx g0 = st0 := by rw [hs0']; exact hpop.1
        have hs1q : s1.pop_mapping mx g1 = st1 := by rw [hs1']; exact hpop.2
        rcases hnf : next_from_index st0 list (nx + 1) with _ | nx'
        · have hloop : candidates_loop g0 g1 recurse list mx (cfuel + 1) nx st0 st1 =
              (none, st0, st1) := by
            simp only [candidates_loop, size_check_true, if_true]
            rw [if_pos hfe, hrec]
            show (match next_from_index (s0.pop_mapping nx g0) list (nx + 1) with
                  | none => ((none : Option Bool), s0.pop_mapping nx g0, s1.pop_mapping mx g1)
                  | some nx2 => candidates_loop g0 g1 recurse list mx cfuel nx2
                      (s0.pop_mapping nx g0) (s1.pop_mapping mx g1)) = (none, st0, st1)
            rw [hs0q, hs1q, hnf]
          refine ⟨fun _ => by rw [hloop]; exact ⟨rfl, rfl⟩, ?_, ?_⟩
          · intro hsome
            rw [hloop] at hsome
            simp at hsome
          · intro φ ψ hiso hagree Hcompl hle hflt
            exfalso
            have hψQ : Qlist st0 list (ψ mx) :=
              transfer_list g0 g1 st0 st1 φ ψ hW hdir hiso hagree list mx hQm
            by_cases hgood : nx = ψ mx
            · have hφnx : φ nx = mx := by rw [hgood]; exact hiso.2.2.2.1 mx hmx_lt
              have hagp := mapping_agrees_push φ st0 nx mx g0 hagree hφnx
              have hct := Hcompl _ _ hWp hagp (by rw [push_mapping_generation])
              rw [hrec] at hct
              exact absurd hct (by simp)
            · obtain ⟨r, hr, _, _⟩ :=
                next_from_index_reaches st0 list (nx + 1) (ψ mx) hψQ (by omega)
              rw [hnf] at hr
              cases hr
        · obtain ⟨hQn', hge', hmin'⟩ := next_from_index_some st0 list (nx + 1) nx' hnf
          have hloop : candidates_loop g0 g1 recurse list mx (cfuel + 1) nx st0 st1 =
              candidates_loop g0 g1 recurse list mx cfuel nx' st0 st1 := by
            simp only [candidates_loop, size_check_true, if_true]
            rw [if_pos hfe, hrec]
            show (match next_from_index (s0.pop_mapping nx g0) list (nx + 1) with
                  | none => ((none : Option Bool), s0.pop_mapping nx g0, s1.pop_mapping mx g1)
                  | some nx2 => candidates_loop g0 g1 recurse list mx cfuel nx2
                      (s0.pop_mapping nx g0) (s1.pop_mapping mx g1)) =
                candidates_loop g0 g1 recurse list mx cfuel nx' st0 st1
            rw [hs0q, hs1q, hnf]
          have IH := ih nx' st0 st1 hW hQn' hQm
          refine ⟨?_, ?_, ?_⟩
          · rw [hloop]
            exact IH.1
          · rw [hloop]
            exact IH.2.1
          · intro φ ψ hiso hagree Hcompl hle hflt
            have hψQ : Qlist st0 list (ψ mx) :=
              transfer_list g0 g1 st0 st1 φ ψ hW hdir hiso hagree list mx hQm
            have hgood : nx ≠ ψ mx := by
              intro he
              have hφnx : φ nx = mx := by rw [he]; exact hiso.2.2.2.1 mx hmx_lt
              have hagp := mapping_agrees_push φ st0 nx mx g0 hagree hφnx
              have hct := Hcompl _ _ hWp hagp (by rw [push_mapping_generation])
              rw [hrec] at hct
              exact absurd hct (by simp)
            have hnx'le : nx' ≤ ψ mx := by
              by_contra hgt
              exact hmin' (ψ mx) (by omega) (by omega) hψQ
            rw [hloop]
            exact IH.2.2 φ ψ hiso hagree Hcompl hnx'le (by omega)
      · -- the recursive call decided: the loop forwards its result
        have hloop : candidates_loop g0 g1 recurse list mx (cfuel + 1) nx st0 st1 =
            (some r, s0, s1) := by
          simp only [candidates_loop, size_check_true, if_true]
          rw [if_pos hfe, hrec]
        refine ⟨?_, ?_, ?_⟩
        · intro hnone
          rw [hloop] at hnone
          simp at hnone
        · intro hsome
          rw [hloop] at hsome
          exact Hsound _ _ hWp (by rw [hrec]; exact hsome)
        · intro φ ψ hiso hagree Hcompl hle hflt
          rw [hloop]
          show some r = some true
          cases r
          · exact absurd (show (recurse (st0.push_mapping nx mx g0)
                (st1.push_mapping mx nx g1)).1 = some false by rw [hrec]) (HNF _ _)
          · rfl
    · rcases hnf : next_from_index st0 list (nx + 1) with _ | nx'
      · have hloop : candidates_loop g0 g1 recurse list mx (cfuel + 1) nx st0 st1 =
            (none, st0, st1) := by
          simp only [candidates_loop, size_check_true, if_true]
          rw [if_neg hfe]
          show (match next_from_index st0 list (nx + 1) with
                | none => ((none : Option Bool), st0, st1)
                | some nx2 => candidates_loop g0 g1 recurse list mx cfuel nx2 st0 st1) =
              (none, st0, st1)
          rw [hnf]
        refine ⟨fun _ => by rw [hloop]; exact ⟨rfl, rfl⟩, ?_, ?_⟩
        · intro hsome
          rw [hloop] at hsome
          simp at hsome
        · intro φ ψ hiso hagree Hcompl hle hflt
          exfalso
          have hψQ : Qlist st0 list (ψ mx) :=
            transfer_list g0 g1 st0 st1 φ ψ hW hdir hiso hagree list mx hQm
          have hgood : nx ≠ ψ mx := by
            intro he
            apply hfe
            rw [he]
            exact feasible_good g0 g1 st0 st1 φ ψ hW hiso hagree mx hmx_lt hmx_unm
          obtain ⟨r, hr, _, _⟩ :=
            next_from_index_reaches st0 list (nx + 1) (ψ mx) hψQ (by omega)
          rw [hnf] at hr
          cases hr
      · obtain ⟨hQn', hge', hmin'⟩ := next_from_index_some st0 list (nx + 1) nx' hnf
        have hloop : candidates_loop g0 g1 recurse list mx (cfuel + 1) nx st0 st1 =
            candidates_loop g0 g1 recurse list mx cfuel nx' st0 st1 := by
          simp only [candidates_loop, size_check_true, if_true]
          rw [if_neg hfe]
          show (match next_from_index st0 list (nx + 1) with
                | none => ((none : Option Bool), st0, st1)
                | some nx2 => candidates_loop g0 g1 recurse list mx cfuel nx2 st0 st1) =
              candidates_loop g0 g1 recurse list mx cfuel nx' st0 st1
          rw [hnf]
        have IH := ih nx' st0 st1 hW hQn' hQm
        refine ⟨?_, ?_, ?_⟩
        · rw [hloop]
          exact IH.1
        · rw [hloop]
          exact IH.2.1
        · intro φ ψ hiso hagree Hcompl hle hflt
          have hψQ : Qlist st0 list (ψ mx) :=
            transfer_list g0 g1 st0 st1 φ ψ hW hdir hiso hagree list mx hQm
          have hgood : nx ≠ ψ mx := by
            intro he
            apply hfe
            rw [he]
            exact feasible_good g0 g1 st0 st1 φ ψ hW hiso hagree mx hmx_lt hmx_unm
          have hnx'le : nx' ≤ ψ mx := by
            by_contra hgt
            exact hmin' (ψ mx) (by omega) (by omega) hψQ
          rw [hloop]
          exact IH.2.2 φ ψ hiso hagree Hcompl hnx'le (by omega)

lemma try_match_main (g0 g1 : Graph) (hdir : g0.directed = g1.directed)
    (hnodes : g0.node_count = g1.node_count) :
    ∀ fuel st0 st1, SearchInv g0 g1 st0 st1 →
      (((try_match g0 g1 fuel st0 st1).1 = none →
        (try_match g0 g1 fuel st0 st1).2.1 = st0 ∧
        (try_match g0 g1 fuel st0 st1).2.2 = st1) ∧
      ((try_match g0 g1 fuel st0 st1).1 = some true → ∃ φ ψ, iso_pair g0 g1 φ ψ) ∧
      (∀ φ ψ, iso_pair g0 g1 φ ψ → mapping_agrees φ st0 →
        g0.node_count < st0.generation + fuel →
        (try_match g0 g1 fuel st0 st1).1 = some true)) := by
  intro fuel
  induction fuel with
  | zero =>
    intro st0 st1 hW
    refine ⟨fun _ => ⟨rfl, rfl⟩, ?_, ?_⟩
    · intro hsome
      simp [try_match] at hsome
    · intro φ ψ hiso hagree hfc
      exfalso
      have h2 : List.countP (fun o : Option Nat => o.isSome) st0.mapping ≤
          st0.mapping.length := List.countP_le_length _
      have h3 := hW.count0
      rw [hW.len_m0] at h2
      omega
  | succ fuel ih =>
    intro st0 st1 hW
    by_cases hc : st0.is_complete
    · have heq : try_match g0 g1 (fuel + 1) st0 st1 = (some true, st0, st1) := by
        simp only [try_match]
        rw [if_pos hc]
      refine ⟨?_, ?_, ?_⟩
      · intro hnone
        rw [heq] at hnone
        simp at hnone
      · intro _
        exact complete_iso g0 g1 st0 st1 hW hnodes hc
      · intro φ ψ hiso hagree hfc
        rw [heq]
    · rcases hsel : select_candidates st0 st1 with _ | ⟨cand0, cand1, list⟩
      · have heq : try_match g0 g1 (fuel + 1) st0 st1 = (none, st0, st1) := by
          simp only [try_match]
          rw [if_neg hc, hsel]
        refine ⟨fun _ => by rw [heq]; exact ⟨rfl, rfl⟩, ?_, ?_⟩
        · intro hsome
          rw [heq] at hsome
          simp at hsome
        · intro φ ψ hiso hagree hfc
          exfalso
          obtain ⟨c, hcsel⟩ := select_candidates_of_incomplete g0 g1 st0 st1 hW hnodes
            (by simpa using hc)
          rw [hsel] at hcsel
          cases hcsel
      · have heq : try_match g0 g1 (fuel + 1) st0 st1 =
            candidates_loop g0 g1 (fun s0 s1 => try_match g0 g1 fuel s0 s1) list cand1
              (st0.mapping.length + st0.out.length + 1) cand0 st0 st1 := by
          simp only [try_match]
          rw [if_neg hc, hsel]
        obtain ⟨hQ0, hQ1, hmin⟩ := select_candidates_decompose st0 st1 cand0 cand1 list hsel
        have L := candidates_loop_main g0 g1 hdir
          (fun s0 s1 => try_match g0 g1 fuel s0 s1) list cand1
          (fun s0 s1 => try_match_ne_some_false g0 g1 fuel s0 s1)
          (fun s0 s1 hW' => (ih s0 s1 hW').1)
          (fun s0 s1 hW' => (ih s0 s1 hW').2.1)
          (st0.mapping.length + st0.out.length + 1) cand0 st0 st1 hW hQ0 hQ1
        refine ⟨?_, ?_, ?_⟩
        · rw [heq]
          exact L.1
        · rw [heq]
          exact L.2.1
        · intro φ ψ hiso hagree hfc
          have hmx_lt : cand1 < g1.node_count :=
            Qlist_lt st1 g1.node_count hW.len_o1 hW.len_m1
              (by rw [hW.dir1]; exact hW.len_i1) list cand1 hQ1
          have hψQ : Qlist st0 list (ψ cand1) :=
            transfer_list g0 g1 st0 st1 φ ψ hW hdir hiso hagree list cand1 hQ1
          have hψlt : ψ cand1 < g0.node_count := hiso.2.1 cand1 hmx_lt
          have hlen0 := hW.len_m0
          rw [heq]
          apply L.2.2 φ ψ hiso hagree
          · intro s0 s1 hW' hag' hgen'
            exact (ih s0 s1 hW').2.2 φ ψ hiso hag' (by rw [hgen']; omega)
          · by_contra hgt
            exact hmin (ψ cand1) (by omega) hψQ
          · omega

lemma mapping_agrees_new (φ : Nat → Nat) (g : Graph) :
    mapping_agrees φ (Vf2State.new g) := by
  intro i j h
  rw [show (Vf2State.new g).mapping = List.replicate g.node_count none from rfl,
    getD_replicate_none] at h
  cases h

lemma iso_one_direction (ga gb : Graph) (hdir : ga.directed = gb.directed)
    (h : is_isomorphic ga gb = true) : is_isomorphic gb ga = true := by
  unfold is_isomorphic is_isomorphic_with at h ⊢
  by_cases hguard : (ga.node_count != gb.node_count || ga.edge_count != gb.edge_count) = true
  · rw [if_pos hguard] at h
    cases h
  · rw [if_neg hguard] at h
    simp only [Bool.or_eq_true, bne_iff_ne, not_or] at hguard
    push_neg at hguard
    obtain ⟨hn, he⟩ := hguard
    simp only at h
    have hroot : (try_match ga gb (ga.node_count + 1)
        (Vf2State.new ga) (Vf2State.new gb)).1 = some true := by
      rcases hx : (try_match ga gb (ga.node_count + 1)
          (Vf2State.new ga) (Vf2State.new gb)).1 with _ | b
      · rw [hx] at h
        cases h
      · rw [hx] at h
        cases b
        · simp at h
        · rfl
    obtain ⟨φ, ψ, hiso⟩ := (try_match_main ga gb hdir hn (ga.node_count + 1)
      (Vf2State.new ga) (Vf2State.new gb) (SearchInv_new ga gb)).2.1 hroot
    have hiso' := iso_pair_symm ga gb φ ψ hdir hiso
    rw [← hn, ← he]
    simp only [bne_self_eq_false, Bool.or_self, Bool.false_eq_true, if_false]
    have hmain := (try_match_main gb ga hdir.symm hn.symm (gb.node_count + 1)
      (Vf2State.new gb) (Vf2State.new ga) (SearchInv_new gb ga)).2.2 ψ φ hiso'
      (mapping_agrees_new ψ gb)
      (by show gb.node_count < (Vf2State.new gb).generation + (gb.node_count + 1)
          rw [show (Vf2State.new gb).generation = 0 from rfl]
          omega)
    rw [hmain]
    rfl

/-- C2: for every pair of graphs of the same directedness,
`is_isomorphic(g0, g1)` equals `is_isomorphic(g1, g0)`: the top-level count
guard is symmetric, and the search decides the existence of a
degree-and-adjacency-preserving bijection between the node ranges, a
symmetric relation. -/
theorem claim_C2 (g0 g1 : Graph) (hdir : g0.directed = g1.directed) :
    is_isomorphic g0 g1 = is_isomorphic g1 g0 := by
  cases h01 : is_isomorphic g0 g1 <;> cases h10 : is_isomorphic g1 g0
  · rfl
  · exact absurd (iso_one_direction g1 g0 hdir.symm h10) (by rw [h01]; simp)
  · exact absurd (iso_one_direction g0 g1 hdir h01) (by rw [h10]; simp)
  · rfl

/-- C2 witness: symmetry evaluated on the concrete directed pair
`gStar` / `gPath`. -/
theorem claim_C2_witness :
    gStar.directed = gPath.directed ∧
      is_isomorphic gStar gPath = is_isomorphic gPath gStar :=
  ⟨rfl, claim_C2 gStar gPath rfl⟩
